import Mathlib

/-!
Verification of the single-page website mirror (`mirror_page.py`).

The development shallowly embeds the program: pure helpers become Lean
functions, the filesystem and the network become explicit state
(`MirrorState`, `Net`), and exceptions become `Except`/`Option` results.
The HTML parser and serializer are external collaborators and are passed
as opaque function parameters; the document tree is modelled as a flat
list of elements in document order, which is all `find_all` exposes.

The first half of the file models the relevant parts of Python's
`urllib.parse` (`urlparse`, `urljoin`), `os.path` (`basename`, `dirname`,
`splitext`) and `pathlib` joining, since the program's behaviour on the
claims depends on their exact semantics.
-/

set_option autoImplicit false

/-- Split a character list at every occurrence of `sep`, like Python's
`str.split(sep)`: the empty string yields `[[]]`. Auxiliary accumulator form. -/
def splitCharAux (sep : Char) : List Char → List Char → List (List Char)
  | [], acc => [acc.reverse]
  | c :: cs, acc =>
    if c = sep then acc.reverse :: splitCharAux sep cs []
    else splitCharAux sep cs (c :: acc)

/-- Python `str.split(sep)` on character lists. -/
def splitChar (sep : Char) (l : List Char) : List (List Char) :=
  splitCharAux sep l []

/-- Index of the first occurrence of a character, if any (Python `str.find`). -/
def findCharIdx (c : Char) : List Char → Option Nat
  | [] => none
  | x :: xs => if x = c then some 0 else (findCharIdx c xs).map (· + 1)

/-- Index of the last occurrence of a character, if any (Python `str.rfind`). -/
def lastIdxOf (c : Char) (l : List Char) : Option Nat :=
  match findCharIdx c l.reverse with
  | none => none
  | some i => some (l.length - 1 - i)

/-- Split at the first occurrence of `c`: returns the part before it and,
when `c` occurs, the part after it (Python `str.split(c, 1)`). -/
def splitAtFirst (c : Char) : List Char → List Char × Option (List Char)
  | [] => ([], none)
  | x :: xs =>
    if x = c then ([], some xs)
    else
      let r := splitAtFirst c xs
      (x :: r.1, r.2)

/-- Boolean list-prefix test. -/
def startsWithL : List Char → List Char → Bool
  | _, [] => true
  | [], _ :: _ => false
  | a :: as, b :: bs => a = b && startsWithL as bs

/-- Boolean list-suffix test (Python `str.endswith`). -/
def endsWithL (l suffix : List Char) : Bool :=
  startsWithL l.reverse suffix.reverse

/-- Python `str.startswith` on strings. -/
def strStartsWith (s pre : String) : Bool := startsWithL s.data pre.data

/-- Python `str.endswith` on strings. -/
def strEndsWith (s suf : String) : Bool := endsWithL s.data suf.data

/-- ASCII lower-casing of a character list (Python `str.lower` on ASCII). -/
def lowerL (l : List Char) : List Char := l.map Char.toLower

/-- ASCII lower-casing of a string. -/
def strLower (s : String) : String := ⟨lowerL s.data⟩

/-- Join character-list segments with a separator character (Python `sep.join`). -/
def joinChar (sep : Char) : List (List Char) → List Char
  | [] => []
  | [x] => x
  | x :: y :: r => x ++ sep :: joinChar sep (y :: r)

/-- String membership in a list of strings (Python `in` on a tuple/list). -/
def memStr (s : String) : List String → Bool
  | [] => false
  | x :: xs => if x = s then true else memStr s xs

/-- Decidable equality for `Except`, needed to evaluate run results. -/
instance instDecEqExceptM {α β : Type} [DecidableEq α] [DecidableEq β] :
    DecidableEq (Except α β) := fun x y =>
  match x, y with
  | .ok a, .ok b =>
    if h : a = b then isTrue (by rw [h]) else isFalse (fun hh => h (Except.ok.inj hh))
  | .error a, .error b =>
    if h : a = b then isTrue (by rw [h]) else isFalse (fun hh => h (Except.error.inj hh))
  | .ok _, .error _ => isFalse (fun hh => Except.noConfusion hh)
  | .error _, .ok _ => isFalse (fun hh => Except.noConfusion hh)

/-! ## `urllib.parse` model -/

/-- The six components produced by `urllib.parse.urlparse`. -/
structure UrlParts where
  scheme : String
  netloc : String
  path : String
  params : String
  query : String
  fragment : String
deriving DecidableEq

/-- Characters allowed inside a URL scheme (`urllib.parse.scheme_chars`). -/
def schemeChar (c : Char) : Bool :=
  c.isAlpha || c.isDigit || c = '+' || c = '-' || c = '.'

/-- Strip leading C0-control-or-space characters, as `urlsplit` does. -/
def lstripC0 (l : List Char) : List Char := l.dropWhile (fun c => c.toNat ≤ 32)

/-- Remove tab, CR and LF anywhere in the URL, as `urlsplit` does. -/
def removeUnsafe (l : List Char) : List Char :=
  l.filter (fun c => !(c = '\t' || c = '\r' || c = '\n'))

/-- A character that does not terminate the netloc part. -/
def notNetlocEnd (c : Char) : Bool := !(c = '/' || c = '?' || c = '#')

/-- `urllib.parse.urlsplit` (with `allow_fragments=True`); `params` is left empty. -/
def urlsplitL (urlStr : String) (defScheme : String) : UrlParts :=
  let url := removeUnsafe (lstripC0 urlStr.data)
  let schemeRest : String × List Char :=
    match findCharIdx ':' url with
    | some i =>
      if 0 < i ∧ (url.take 1).all Char.isAlpha ∧ (url.take i).all schemeChar then
        ((⟨lowerL (url.take i)⟩ : String), url.drop (i + 1))
      else (defScheme, url)
    | none => (defScheme, url)
  let netlocRest : String × List Char :=
    match schemeRest.2 with
    | '/' :: '/' :: r => ((⟨r.takeWhile notNetlocEnd⟩ : String), r.dropWhile notNetlocEnd)
    | rest => ("", rest)
  let fragSplit := splitAtFirst '#' netlocRest.2
  let querySplit := splitAtFirst '?' fragSplit.1
  { scheme := schemeRest.1
    netloc := netlocRest.1
    path := ⟨querySplit.1⟩
    params := ""
    query := ⟨querySplit.2.getD []⟩
    fragment := ⟨fragSplit.2.getD []⟩ }

/-- `urllib.parse._splitparams`: split `;params` off the last path segment. -/
def splitparamsL (p : List Char) : List Char × List Char :=
  if (findCharIdx '/' p).isSome then
    match lastIdxOf '/' p with
    | some j =>
      match findCharIdx ';' (p.drop j) with
      | some k => (p.take (j + k), p.drop (j + k + 1))
      | none => (p, [])
    | none => (p, [])
  else
    match findCharIdx ';' p with
    | some i => (p.take i, p.drop (i + 1))
    | none => (p, [])

/-- `urllib.parse.urlparse` with an explicit default scheme. -/
def urlparse (urlStr defScheme : String) : UrlParts :=
  let sp := urlsplitL urlStr defScheme
  if (findCharIdx ';' sp.path.data).isSome then
    let pp := splitparamsL sp.path.data
    { sp with path := ⟨pp.1⟩, params := ⟨pp.2⟩ }
  else sp

/-- `urllib.parse.urlunsplit`. -/
def urlunsplit (scheme netloc pathStr query fragment : String) : String :=
  let url := pathStr
  let url :=
    if netloc ≠ "" ∨ strStartsWith url "//" then
      let url2 := if url ≠ "" ∧ ¬(strStartsWith url "/") then "/" ++ url else url
      "//" ++ netloc ++ url2
    else url
  let url := if scheme ≠ "" then scheme ++ ":" ++ url else url
  let url := if query ≠ "" then url ++ "?" ++ query else url
  if fragment ≠ "" then url ++ "#" ++ fragment else url

/-- `urllib.parse.urlunparse`. -/
def urlunparse (u : UrlParts) : String :=
  let pathStr := if u.params ≠ "" then u.path ++ ";" ++ u.params else u.path
  urlunsplit u.scheme u.netloc pathStr u.query u.fragment

/-- `urllib.parse.uses_relative`. -/
def uses_relative : List String :=
  ["", "ftp", "http", "gopher", "nntp", "imap", "wais", "file", "https",
   "shttp", "mms", "prospero", "rtsp", "rtspu", "sftp", "svn", "svn+ssh",
   "ws", "wss"]

/-- `urllib.parse.uses_netloc`. -/
def uses_netloc : List String :=
  ["", "ftp", "http", "gopher", "nntp", "telnet", "imap", "wais", "file",
   "mms", "https", "shttp", "snews", "prospero", "rtsp", "rtspu", "rsync",
   "svn", "svn+ssh", "sftp", "nfs", "git", "git+ssh", "ws", "wss",
   "itms-services"]

/-- Tail of `segments[1:-1] = filter(None, segments[1:-1])`: drop empty
segments except the last one. -/
def filterMidTail : List (List Char) → List (List Char)
  | [] => []
  | [a] => [a]
  | a :: rest => if a = [] then filterMidTail rest else a :: filterMidTail rest

/-- `segments[1:-1] = filter(None, segments[1:-1])`: drop empty middle segments. -/
def filterMid : List (List Char) → List (List Char)
  | [] => []
  | [a] => [a]
  | a :: rest => a :: filterMidTail rest

/-- The `resolved_path` loop of `urljoin`: `..` pops (ignoring underflow),
`.` is skipped, other segments are pushed. The accumulator is the reversed
resolved path. -/
def resolveSegsAux : List (List Char) → List (List Char) → List (List Char)
  | acc, [] => acc.reverse
  | acc, seg :: rest =>
    if seg = ['.', '.'] then resolveSegsAux (acc.drop 1) rest
    else if seg = ['.'] then resolveSegsAux acc rest
    else resolveSegsAux (seg :: acc) rest

/-- `urllib.parse.urljoin` (with `allow_fragments=True`). -/
def urljoin (base urlStr : String) : String :=
  if base = "" then urlStr
  else if urlStr = "" then base
  else
    let b := urlparse base ""
    let u := urlparse urlStr b.scheme
    if u.scheme ≠ b.scheme ∨ ¬(memStr u.scheme uses_relative = true) then urlStr
    else
      let netlocChoice : Option String :=
        if memStr u.scheme uses_netloc then
          (if u.netloc ≠ "" then none else some b.netloc)
        else some u.netloc
      match netlocChoice with
      | none => urlunparse u
      | some netloc =>
        if u.path = "" ∧ u.params = "" then
          let query := if u.query = "" then b.query else u.query
          urlunparse { scheme := u.scheme, netloc := netloc, path := b.path,
                       params := b.params, query := query, fragment := u.fragment }
        else
          let base_parts := splitChar '/' b.path.data
          let base_parts :=
            if base_parts.getLastD [] ≠ [] then base_parts.dropLast else base_parts
          let segments :=
            if startsWithL u.path.data ['/'] then splitChar '/' u.path.data
            else filterMid (base_parts ++ splitChar '/' u.path.data)
          let resolved := resolveSegsAux [] segments
          let resolved :=
            if segments.getLastD [] = ['.'] ∨ segments.getLastD [] = ['.', '.'] then
              resolved ++ [[]]
            else resolved
          let pathStr : String := ⟨joinChar '/' resolved⟩
          let pathStr := if pathStr = "" then "/" else pathStr
          urlunparse { scheme := u.scheme, netloc := netloc, path := pathStr,
                       params := u.params, query := u.query, fragment := u.fragment }

/-! ## `os.path` and `pathlib` model -/

/-- `os.path.basename`: everything after the last slash. -/
def basenameL (p : List Char) : List Char :=
  (p.reverse.takeWhile (fun c => c ≠ '/')).reverse

/-- `os.path.dirname` (POSIX): everything up to the last slash, with
trailing slashes stripped unless the head is all slashes. -/
def dirnameL (p : List Char) : List Char :=
  match lastIdxOf '/' p with
  | none => []
  | some i =>
    let head := p.take (i + 1)
    if head ≠ [] ∧ ¬(head.all (fun c => c = '/')) then
      (head.reverse.dropWhile (fun c => c = '/')).reverse
    else head

/-- `os.path.splitext` on a basename (no slashes): split at the last dot,
unless every character before that dot is itself a dot. -/
def splitextL (p : List Char) : List Char × List Char :=
  match lastIdxOf '.' p with
  | none => (p, [])
  | some d =>
    if (p.take d).all (fun c => c = '.') then (p, [])
    else (p.take d, p.drop d)

/-- `re.sub(r"[^0-9A-Za-z._-]", "_", q)`. -/
def sanitizeQ (q : List Char) : List Char :=
  q.map (fun c => if c.isAlphanum || c = '.' || c = '_' || c = '-' then c else '_')

/-- Python `"...".lstrip("/")`. -/
def lstripSlash (p : List Char) : List Char := p.dropWhile (fun c => c = '/')

/-- Keep a path segment when `pathlib` would: drop empty and `.` segments. -/
def keepSeg : List Char → Bool
  | [] => false
  | ['.'] => false
  | _ => true

/-- `pathlib` parsing of a relative path string into segments. -/
def pathSegs (l : List Char) : List String :=
  ((splitChar '/' l).filter keepSeg).map (fun seg => (⟨seg⟩ : String))

/-- A filesystem path, as its list of components. -/
abbrev FsPath := List String

/-- Join path components with forward slashes
(`str(path).replace(os.sep, "/")` on POSIX). -/
def joinSlash : FsPath → String
  | [] => ""
  | [x] => x
  | x :: y :: r => x ++ "/" ++ joinSlash (y :: r)

/-! ## The mirror program -/

/-- `ASSET_EXTENSIONS` from `mirror_page.py`, in source order. -/
def ASSET_EXTENSIONS : List String :=
  [".png", ".jpg", ".jpeg", ".gif", ".webp", ".svg",
   ".css", ".js",
   ".woff", ".woff2", ".ttf", ".otf", ".eot",
   ".ico", ".mp4", ".webm"]

/-- `should_download_asset`: reject `data`/`mailto`/`javascript` schemes,
otherwise accept iff the lower-cased path ends with a known extension. -/
def should_download_asset (url : String) : Bool :=
  let parsed := urlparse url ""
  if parsed.scheme = "data" ∨ parsed.scheme = "mailto" ∨ parsed.scheme = "javascript" then
    false
  else
    let path := strLower parsed.path
    ASSET_EXTENSIONS.any (fun ext => strEndsWith path ext)

/-- `asset_local_name`: map an asset URL to a local path under `base_dir`,
mirroring the URL's directory structure and disambiguating query strings. -/
def asset_local_name (asset_url : String) (base_dir : FsPath) : FsPath :=
  let parsed := urlparse asset_url ""
  let path : String := if parsed.path = "" then "/unnamed" else parsed.path
  let filename0 := basenameL path.data
  let filename1 := if filename0 = [] then "index".data else filename0
  let ext0 := (splitextL filename1).2
  let ext := if ext0 = [] then ".bin".data else ext0
  let filename2 := if ext0 = [] then filename1 ++ ".bin".data else filename1
  let filename3 :=
    if parsed.query ≠ "" then
      (splitextL filename2).1 ++ '_' :: sanitizeQ parsed.query.data ++ ext
    else filename2
  let dir_part := dirnameL (lstripSlash path.data)
  base_dir ++ pathSegs dir_part ++ [(⟨filename3⟩ : String)]

/-- The network: maps a URL to its body on success, `none` on any request
failure (connection error or non-success status via `raise_for_status`). -/
abbrev Net := String → Option String

/-- The mutable world: downloaded files (path to content), the set of
created directories, the ordered list of issued asset GET requests, and the
console output. -/
structure MirrorState where
  files : List (FsPath × String)
  dirs : List FsPath
  log : List String
  console : List String
deriving DecidableEq

/-- Look up a file's content. -/
def lookupFile (fs : List (FsPath × String)) (p : FsPath) : Option String :=
  match fs with
  | [] => none
  | (q, c) :: r => if q = p then some c else lookupFile r p

/-- Write (or overwrite) a file. -/
def setFile (fs : List (FsPath × String)) (p : FsPath) (c : String) : List (FsPath × String) :=
  match fs with
  | [] => [(p, c)]
  | (q, d) :: r => if q = p then (p, c) :: r else (q, d) :: setFile r p c

/-- Boolean membership of a path in a list of paths. -/
def memB (p : FsPath) : List FsPath → Bool
  | [] => false
  | d :: r => if d = p then true else memB p r

/-- `Path.exists()`: the path is a downloaded file or a created directory. -/
def existsPathB (s : MirrorState) (p : FsPath) : Bool :=
  (lookupFile s.files p).isSome || memB p s.dirs

/-- Append a console message (`print`). -/
def pushConsole (s : MirrorState) (m : String) : MirrorState :=
  { s with console := s.console ++ [m] }

/-- Insert a directory if absent. -/
def addDir (ds : List FsPath) (d : FsPath) : List FsPath :=
  if memB d ds then ds else ds ++ [d]

/-- All prefixes of a path: the directory itself and its ancestors. -/
def prefixesOf : FsPath → List FsPath
  | [] => [[]]
  | a :: r => [] :: (prefixesOf r).map (fun q => a :: q)

/-- `ensure_dir`: `path.mkdir(parents=True, exist_ok=True)` creates the
directory and all its ancestors. -/
def ensure_dir (s : MirrorState) (p : FsPath) : MirrorState :=
  { s with dirs := (prefixesOf p).foldl addDir s.dirs }

/-- `download_file`: ensure the parent directory, issue the GET (recorded
in `log`), and on success write the body to `target`; on failure report the
error without touching any file. -/
def download_file (net : Net) (s : MirrorState) (url : String) (target : FsPath) :
    MirrorState × Option String :=
  let s1 := ensure_dir s target.dropLast
  let s2 := { s1 with log := s1.log ++ [url] }
  match net url with
  | none => (s2, some ("HTTPError " ++ url))
  | some content => ({ s2 with files := setFile s2.files target content }, none)

/-- The single-quote character, for building `url('...')` replacements. -/
def sQ : String := "\x27"

/-- Python whitespace for `str.strip()`. -/
def isPyWs (c : Char) : Bool :=
  c = ' ' || c = '\t' || c = '\n' || c = '\r' || c = '\x0b' || c = '\x0c'

/-- `str.strip()`. -/
def stripWs (l : List Char) : List Char :=
  ((l.dropWhile isPyWs).reverse.dropWhile isPyWs).reverse

/-- A quote character, for `str.strip('\x27\x22')`. -/
def isQuoteCh (c : Char) : Bool := c = '\x27' || c = '"'

/-- Strip surrounding single/double quotes. -/
def stripQuotes (l : List Char) : List Char :=
  ((l.dropWhile isQuoteCh).reverse.dropWhile isQuoteCh).reverse

/-- `local_path.relative_to(assets_dir)` rendered with forward slashes;
call sites guarantee `assets_dir` is a prefix. -/
def relToAssets (lp assets_dir : FsPath) : String :=
  joinSlash (lp.drop assets_dir.length)

/-- The `repl` closure inside `rewrite_css_urls`, applied to one `url(...)`
match: `g0` is the whole matched text, `inner` the captured group. -/
def cssRepl (net : Net) (base_url : String) (assets_dir : FsPath) ( pubPfx : String)
    (s : MirrorState) (g0 inner : String) : MirrorState × Except String String :=
  let raw : String := ⟨stripQuotes (stripWs inner.data)⟩
  if raw = "" ∨ strStartsWith raw "data:" then (s, .ok g0)
  else
    let full_url := urljoin base_url raw
    if ¬(should_download_asset full_url = true) then (s, .ok ("url(" ++ raw ++ ")"))
    else
      let local_path := asset_local_name full_url assets_dir
      let dl : MirrorState × Option String :=
        if existsPathB s local_path then (s, none)
        else
          let s1 := pushConsole s ("[CSS] Lade " ++ full_url)
          download_file net s1 full_url local_path
      match dl with
      | (s2, some e) => (s2, .error e)
      | (s2, none) =>
        let rel_for_server := pubPfx ++ "/" ++ relToAssets local_path assets_dir
        (s2, .ok ("url(" ++ sQ ++ rel_for_server ++ sQ ++ ")"))

/-- Recognize a case-insensitive `url(` at the head of the input; returns
the four matched characters and the remainder. -/
def matchUrlOpen : List Char → Option (List Char × List Char)
  | a :: b :: c :: d :: rest =>
    if a.toLower = 'u' ∧ b.toLower = 'r' ∧ c.toLower = 'l' ∧ d = '(' then
      some ([a, b, c, d], rest)
    else none
  | _ => none

/-- Scan for the closing parenthesis of a lazy `(.*?)` group: `.` does not
match a newline, so a newline before any `)` means no match. -/
def scanClose : List Char → Option (List Char × List Char)
  | [] => none
  | c :: cs =>
    if c = ')' then some ([], cs)
    else if c = '\n' then none
    else
      match scanClose cs with
      | some (inner, after) => some (c :: inner, after)
      | none => none

/-- `re.sub` for the pattern `url\((.*?)\)` (case-insensitive), threading
state through the replacement function and propagating its exceptions.
`fuel` bounds the recursion; each step consumes at least one character. -/
def cssSubAux (repl : MirrorState → String → String → MirrorState × Except String String) :
    Nat → MirrorState → List Char → MirrorState × Except String (List Char)
  | 0, s, l => (s, .ok l)
  | Nat.succ fuel, s, l =>
    match l with
    | [] => (s, .ok [])
    | c0 :: rest0 =>
      match matchUrlOpen (c0 :: rest0) with
      | some (open4, afterOpen) =>
        match scanClose afterOpen with
        | some (inner, afterClose) =>
          match repl s (⟨open4 ++ inner ++ [')']⟩ : String) (⟨inner⟩ : String) with
          | (s1, .error e) => (s1, .error e)
          | (s1, .ok rep) =>
            match cssSubAux repl fuel s1 afterClose with
            | (s2, .error e) => (s2, .error e)
            | (s2, .ok tail) => (s2, .ok (rep.data ++ tail))
        | none =>
          match cssSubAux repl fuel s rest0 with
          | (s2, .error e) => (s2, .error e)
          | (s2, .ok tail) => (s2, .ok (c0 :: tail))
      | none =>
        match cssSubAux repl fuel s rest0 with
        | (s2, .error e) => (s2, .error e)
        | (s2, .ok tail) => (s2, .ok (c0 :: tail))

/-- `rewrite_css_urls`: substitute every `url(...)` occurrence, downloading
referenced assets; download failures propagate to the caller. -/
def rewrite_css_urls (net : Net) (css_text base_url : String) (assets_dir : FsPath)
    ( pubPfx : String) (s : MirrorState) : MirrorState × Except String String :=
  match cssSubAux (cssRepl net base_url assets_dir pubPfx) css_text.data.length s css_text.data with
  | (s1, .ok l) => (s1, .ok (⟨l⟩ : String))
  | (s1, .error e) => (s1, .error e)

/-! ## Document model and `process_page` -/

/-- One tag of the parsed document: name, attributes in order, and optional
text content (`tag.string`, used for `style` tags). -/
structure Element where
  name : String
  attrs : List (String × String)
  content : Option String
deriving DecidableEq

/-- The parsed document, as its tags in document order. -/
abbrev Doc := List Element

/-- `tag.get(attr)`. -/
def getAttr (e : Element) (a : String) : Option String :=
  match e.attrs.find? (fun p => p.1 = a) with
  | some p => some p.2
  | none => none

/-- Replace or append an attribute binding. -/
def setAttrList : List (String × String) → String → String → List (String × String)
  | [], a, v => [(a, v)]
  | (k, w) :: r, a, v => if k = a then (a, v) :: r else (k, w) :: setAttrList r a v

/-- `tag[attr] = v`. -/
def setAttr (e : Element) (a v : String) : Element :=
  { e with attrs := setAttrList e.attrs a v }

/-- The fixed `tag_attr_pairs` list from `process_page`. -/
def tag_attr_pairs : List (String × String) :=
  [("img", "src"), ("script", "src"), ("link", "href"),
   ("source", "src"), ("video", "src"), ("audio", "src")]

/-- Phase 1 body for one element and one `(tag, attr)` pair: resolve,
classify, download unless present (failures caught and logged), rewrite
the attribute to the public path. -/
def processAttrElem (net : Net) (start_url : String) (assets_dir : FsPath)
    ( pubPfx nm attr : String) (s : MirrorState) (e : Element) : MirrorState × Element :=
  if e.name = nm then
    match getAttr e attr with
    | none => (s, e)
    | some url_val =>
      if url_val = "" then (s, e)
      else
        let full_url := urljoin start_url url_val
        if ¬(should_download_asset full_url = true) then (s, e)
        else
          let local_path := asset_local_name full_url assets_dir
          let dl : MirrorState × Bool :=
            if existsPathB s local_path then (s, true)
            else
              let s1 := pushConsole s ("[HTML] Lade " ++ full_url)
              match download_file net s1 full_url local_path with
              | (s2, some err) =>
                (pushConsole s2 ("Fehler beim Download " ++ full_url ++ ": " ++ err), false)
              | (s2, none) => (s2, true)
          match dl with
          | (s3, false) => (s3, e)
          | (s3, true) =>
            (s3, setAttr e attr ( pubPfx ++ "/" ++ relToAssets local_path assets_dir))
  else (s, e)

/-- Thread state through an element-wise document transformation. -/
def mapAccum (f : MirrorState → Element → MirrorState × Element) :
    MirrorState → Doc → MirrorState × Doc
  | s, [] => (s, [])
  | s, e :: es =>
    let r := f s e
    let rr := mapAccum f r.1 es
    (rr.1, r.2 :: rr.2)

/-- Thread state through an element-wise transformation whose per-element
step may raise; the first error aborts the traversal. -/
def mapAccumE (f : MirrorState → Element → MirrorState × Except String Element) :
    MirrorState → Doc → MirrorState × Except String Doc
  | s, [] => (s, .ok [])
  | s, e :: es =>
    match f s e with
    | (s1, .error err) => (s1, .error err)
    | (s1, .ok e1) =>
      match mapAccumE f s1 es with
      | (s2, .error err) => (s2, .error err)
      | (s2, .ok es1) => (s2, .ok (e1 :: es1))

/-- Phase 1: all `(tag, attr)` pairs over the whole document, in pair order. -/
def phase1 (net : Net) (start_url : String) (assets_dir : FsPath) ( pubPfx : String)
    (s : MirrorState) (doc : Doc) : MirrorState × Doc :=
  tag_attr_pairs.foldl
    (fun acc pair => mapAccum (processAttrElem net start_url assets_dir pubPfx pair.1 pair.2) acc.1 acc.2)
    (s, doc)

/-- Phase 2 body for a `<style>` tag with truthy text content: rewrite the
CSS; rewriter failures are NOT caught here. -/
def processStyleTag (net : Net) (start_url : String) (assets_dir : FsPath) ( pubPfx : String)
    (s : MirrorState) (e : Element) : MirrorState × Except String Element :=
  if e.name = "style" then
    match e.content with
    | some css =>
      if css = "" then (s, .ok e)
      else
        match rewrite_css_urls net css start_url assets_dir pubPfx s with
        | (s1, .error err) => (s1, .error err)
        | (s1, .ok new_css) => (s1, .ok { e with content := some new_css })
    | none => (s, .ok e)
  else (s, .ok e)

/-- Phase 2 body for any tag carrying a `style` attribute: rewrite the
inline CSS; rewriter failures are NOT caught here. -/
def processStyleAttr (net : Net) (start_url : String) (assets_dir : FsPath) ( pubPfx : String)
    (s : MirrorState) (e : Element) : MirrorState × Except String Element :=
  match getAttr e "style" with
  | some css_inline =>
    match rewrite_css_urls net css_inline start_url assets_dir pubPfx s with
    | (s1, .error err) => (s1, .error err)
    | (s1, .ok new_css) => (s1, .ok (setAttr e "style" new_css))
  | none => (s, .ok e)

/-- `rel` attribute contains `stylesheet` (bs4 splits `rel` on whitespace). -/
def relStylesheet (e : Element) : Bool :=
  match getAttr e "rel" with
  | some r => r ≠ "" && memStr "stylesheet" ((splitChar ' ' r.data).map (fun l => (⟨l⟩ : String)))
  | none => false

/-- Phase 3 body for one `link rel=stylesheet` element: fetch the CSS if
its mapped path is absent, rewrite it, write the result; any failure inside
the fetch-and-rewrite is caught and skips the href rewrite. -/
def processLinkElem (net : Net) (start_url : String) (assets_dir : FsPath) ( pubPfx : String)
    (s : MirrorState) (e : Element) : MirrorState × Element :=
  if e.name = "link" ∧ relStylesheet e = true then
    match getAttr e "href" with
    | none => (s, e)
    | some href =>
      if href = "" then (s, e)
      else
        let css_url := urljoin start_url href
        if ¬(should_download_asset css_url = true) then (s, e)
        else
          let local_css_path := asset_local_name css_url assets_dir
          if existsPathB s local_css_path then
            (s, setAttr e "href" ( pubPfx ++ "/" ++ relToAssets local_css_path assets_dir))
          else
            let s1 := pushConsole s ("[CSS] Lade und verarbeite " ++ css_url)
            let s2 := { s1 with log := s1.log ++ [css_url] }
            match net css_url with
            | none => (pushConsole s2 ("Fehler bei CSS " ++ css_url ++ ": HTTPError " ++ css_url), e)
            | some css_body =>
              match rewrite_css_urls net css_body css_url assets_dir pubPfx s2 with
              | (s3, .error err) =>
                (pushConsole s3 ("Fehler bei CSS " ++ css_url ++ ": " ++ err), e)
              | (s3, .ok new_css) =>
                let s4 := ensure_dir s3 local_css_path.dropLast
                let s5 := { s4 with files := setFile s4.files local_css_path new_css }
                (s5, setAttr e "href" ( pubPfx ++ "/" ++ relToAssets local_css_path assets_dir))
  else (s, e)

/-- The state after `process_page`'s setup and before the root fetch. -/
def preState (s0 : MirrorState) (out_dir : FsPath) (start_url : String) : MirrorState :=
  pushConsole (ensure_dir s0 out_dir) ("Lade HTML: " ++ start_url)

/-- `process_page`: fetch the page, run the three rewrite phases, then
serialize the document to `out_dir/html_name`. The HTML parser (`parse`)
and serializer (`render`) are the external library, passed as functions.
A root fetch failure or an uncaught phase-2 failure aborts with `.error`. -/
def process_page (parse : String → Doc) (render : Doc → String) (net : Net)
    (start_url : String) (out_dir : FsPath) ( pubPfx html_name : String)
    (s0 : MirrorState) : MirrorState × Except String Doc :=
  let assets_dir := out_dir ++ ["assets"]
  let s := preState s0 out_dir start_url
  match net start_url with
  | none => (s, .error ("HTTPError " ++ start_url))
  | some html =>
    let soup := parse html
    let p1 := phase1 net start_url assets_dir pubPfx s soup
    match mapAccumE (processStyleTag net start_url assets_dir pubPfx) p1.1 p1.2 with
    | (s2, .error err) => (s2, .error err)
    | (s2, .ok doc2) =>
      match mapAccumE (processStyleAttr net start_url assets_dir pubPfx) s2 doc2 with
      | (s3, .error err) => (s3, .error err)
      | (s3, .ok doc3) =>
        let p3 := mapAccum (processLinkElem net start_url assets_dir pubPfx) s3 doc3
        let out_html_path := out_dir ++ pathSegs html_name.data
        let s4 := { p3.1 with files := setFile p3.1.files out_html_path (render p3.2) }
        let s5 := pushConsole s4 ("Fertig. HTML: " ++ joinSlash out_html_path)
        (s5, .ok p3.2)

/-! ## Invariant predicates and concrete scenarios -/

/-- `p` lies beneath `d` (as path components). -/
def isUnder (d p : FsPath) : Prop := ∃ rest, p = d ++ rest

/-- One processing step respects the skip-if-exists discipline relative to
assets root `d`: existing paths keep existing, every newly logged request is
for a URL whose mapped path did not exist before the step, and file contents
change only beneath `d`. -/
def StepInv (d : FsPath) (s s1 : MirrorState) : Prop :=
  (∀ p, existsPathB s p = true → existsPathB s1 p = true) ∧
  (∀ u, u ∈ s1.log → u ∈ s.log ∨ existsPathB s (asset_local_name u d) = false) ∧
  (∀ p, lookupFile s1.files p ≠ lookupFile s.files p → isUnder d p)

/-- The asset-extension list exactly as the specification enumerates it
(claim C5), for comparison with the source's `ASSET_EXTENSIONS`. -/
def specAssetExtensions : List String :=
  [".png", ".jpg", ".jpeg", ".gif", ".webp", ".svg", ".ico",
   ".css", ".js", ".woff", ".woff2", ".ttf", ".otf", ".eot", ".mp4", ".webm"]

/-- A small deterministic network for the concrete scenarios. -/
def mirrorNet : Net := fun u =>
  if u = "http://ex.com/" then some "<html>"
  else if u = "http://ex.com/main.css" then some "url(bg.png)"
  else if u = "http://ex.com/bg.png" then some "IMG"
  else if u = "http://ex.com/b.png" then some "IMG2"
  else if u = "https://example.com/img/bg.png" then some "PNG"
  else none

/-- The empty initial world. -/
def emptyState : MirrorState := ⟨[], [], [], []⟩

/-- A page whose only tag is an external stylesheet link. -/
def c1Doc : Doc := [⟨"link", [("rel", "stylesheet"), ("href", "main.css")], none⟩]

/-- Run of the pipeline on `c1Doc`. -/
def c1Run : MirrorState × Except String Doc :=
  process_page (fun _ => c1Doc) (fun _ => "HTML") mirrorNet "http://ex.com/"
    ["out"] "/assets" "index.html" emptyState

/-- An `img` with a `data:` src that also carries a `style` attribute
referencing an asset. -/
def c9Elem : Element :=
  ⟨"img", [("src", "data:image/png;base64,AAA"), ("style", "background:url(b.png)")], none⟩

/-- Run of the pipeline on the document `[c9Elem]`. -/
def c9Run : MirrorState × Except String Doc :=
  process_page (fun _ => [c9Elem]) (fun _ => "HTML") mirrorNet "http://ex.com/"
    ["out"] "/assets" "index.html" emptyState

/-- An `img` with a `data:` src and no `style` attribute. -/
def c9CleanElem : Element := ⟨"img", [("src", "data:image/png;base64,AAA")], none⟩

/-- A page whose only tag is a `<style>` block referencing an asset the
network cannot serve. -/
def c2Doc : Doc := [⟨"style", [], some "q url(missing.png) r"⟩]

/-- Run of the pipeline on `c2Doc`. -/
def c2Run : MirrorState × Except String Doc :=
  process_page (fun _ => c2Doc) (fun _ => "HTML") mirrorNet "http://ex.com/"
    ["out"] "/assets" "index.html" emptyState

/-- Phase-1 result on the `c2Doc` scenario. -/
def c2Phase1 : MirrorState × Doc :=
  phase1 mirrorNet "http://ex.com/" (["out"] ++ ["assets"]) "/assets"
    (preState emptyState ["out"] "http://ex.com/") c2Doc

/-- The inline-`<style>` rewriting pass on the `c2Doc` scenario; it fails on
the unreachable `missing.png`. -/
def c2StyleMid : MirrorState × Except String Doc :=
  mapAccumE (processStyleTag mirrorNet "http://ex.com/" (["out"] ++ ["assets"]) "/assets")
    c2Phase1.1 c2Phase1.2

/-- Run of the pipeline on a document holding only `c9CleanElem`. -/
def c9CleanRun : MirrorState × Except String Doc :=
  process_page (fun _ => [c9CleanElem]) (fun _ => "HTML") mirrorNet "http://ex.com/"
    ["out"] "/assets" "index.html" emptyState

/-! ## Basic lemmas -/

theorem startsWithL_append (p t : List Char) : startsWithL (p ++ t) p = true := by
  induction p with
  | nil => cases t <;> rfl
  | cons a as ih => simp [startsWithL, ih]

theorem startsWithL_exists {l p : List Char} (h : startsWithL l p = true) :
    ∃ t, l = p ++ t := by
  induction p generalizing l with
  | nil => exact ⟨l, rfl⟩
  | cons b bs ih =>
    cases l with
    | nil => simp [startsWithL] at h
    | cons a as =>
      simp only [startsWithL, Bool.and_eq_true, decide_eq_true_eq] at h
      obtain ⟨t, ht⟩ := ih h.2
      exact ⟨t, by rw [h.1, ht]; simp⟩

theorem endsWithL_append (x e : List Char) : endsWithL (x ++ e) e = true := by
  simpa [endsWithL, List.reverse_append] using startsWithL_append e.reverse x.reverse

theorem memB_iff (p : FsPath) (ds : List FsPath) : memB p ds = true ↔ p ∈ ds := by
  induction ds with
  | nil => simp [memB]
  | cons d r ih =>
    by_cases h : d = p
    · simp [memB, h]
    · simp [memB, h, ih, Ne.symm h]

theorem memB_append (p : FsPath) (ds es : List FsPath) :
    memB p (ds ++ es) = (memB p ds || memB p es) := by
  induction ds with
  | nil => simp [memB]
  | cons d r ih =>
    by_cases h : d = p <;> simp [memB, h, ih]

theorem addDir_keeps {ds : List FsPath} {q : FsPath} (d0 : FsPath)
    (h : memB q ds = true) : memB q (addDir ds d0) = true := by
  unfold addDir
  split
  · exact h
  · rw [memB_append, h, Bool.true_or]

theorem addDir_adds (ds : List FsPath) (d0 : FsPath) : memB d0 (addDir ds d0) = true := by
  unfold addDir
  split
  · assumption
  · rw [memB_append, Bool.or_eq_true]
    right
    simp [memB]

theorem foldl_addDir_keeps (l : List FsPath) {ds : List FsPath} {q : FsPath}
    (h : memB q ds = true) : memB q (l.foldl addDir ds) = true := by
  induction l generalizing ds with
  | nil => exact h
  | cons a r ih => exact ih (addDir_keeps a h)

theorem foldl_addDir_mem (l : List FsPath) {q : FsPath} (ds : List FsPath) (h : q ∈ l) :
    memB q (l.foldl addDir ds) = true := by
  induction l generalizing ds with
  | nil => cases h
  | cons a r ih =>
    cases h with
    | head => exact foldl_addDir_keeps r (addDir_adds ds q)
    | tail _ hm => exact ih (addDir ds a) hm

theorem take_mem_prefixesOf (p : FsPath) (i : Nat) : p.take i ∈ prefixesOf p := by
  induction p generalizing i with
  | nil => simp [prefixesOf]
  | cons a r ih =>
    cases i with
    | zero => simp [prefixesOf]
    | succ j =>
      simp only [List.take_succ_cons, prefixesOf, List.mem_cons, List.mem_map]
      exact Or.inr ⟨r.take j, ih j, rfl⟩

theorem lookupFile_setFile (fs : List (FsPath × String)) (p : FsPath) (c : String)
    (q : FsPath) :
    lookupFile (setFile fs p c) q = if q = p then some c else lookupFile fs q := by
  induction fs with
  | nil =>
    by_cases h : q = p
    · simp [setFile, lookupFile, h]
    · have h2 : ¬p = q := fun hh => h hh.symm
      simp [setFile, lookupFile, h, h2]
  | cons kv r ih =>
    obtain ⟨k, v⟩ := kv
    by_cases hk : k = p
    · by_cases hq : q = p
      · simp [setFile, lookupFile, hk, hq]
      · have hpq : ¬p = q := fun hh => hq hh.symm
        have hkq : ¬k = q := by rw [hk]; exact hpq
        simp [setFile, lookupFile, hk, hq, hpq, hkq]
    · by_cases hq : q = k
      · have hqp : ¬q = p := by rw [hq]; exact hk
        have hkq : k = q := hq.symm
        simp [setFile, lookupFile, hk, hkq, hqp]
      · have hkq : ¬k = q := fun hh => hq hh.symm
        simp [setFile, lookupFile, hk, hkq, ih]

theorem existsPathB_pushConsole (s : MirrorState) (m : String) (p : FsPath) :
    existsPathB (pushConsole s m) p = existsPathB s p := rfl

theorem existsPathB_ensure_dir {s : MirrorState} {q : FsPath} (p : FsPath)
    (h : existsPathB s q = true) : existsPathB (ensure_dir s p) q = true := by
  simp only [existsPathB, ensure_dir, Bool.or_eq_true] at h ⊢
  cases h with
  | inl hf => exact Or.inl hf
  | inr hd => exact Or.inr (foldl_addDir_keeps _ hd)

theorem ensure_dir_creates (s : MirrorState) (p : FsPath) (i : Nat) :
    memB (p.take i) (ensure_dir s p).dirs = true := by
  simp only [ensure_dir]
  exact foldl_addDir_mem _ _ (take_mem_prefixesOf p i)

theorem stepInv_refl (d : FsPath) (s : MirrorState) : StepInv d s s :=
  ⟨fun _ h => h, fun _ h => Or.inl h, fun _ h => absurd rfl h⟩

theorem stepInv_trans {d : FsPath} {s s1 s2 : MirrorState}
    (h1 : StepInv d s s1) (h2 : StepInv d s1 s2) : StepInv d s s2 := by
  obtain ⟨m1, l1, f1⟩ := h1
  obtain ⟨m2, l2, f2⟩ := h2
  refine ⟨fun p hp => m2 p (m1 p hp), fun u hu => ?_, fun p hp => ?_⟩
  · cases l2 u hu with
    | inl h => exact l1 u h
    | inr h =>
      right
      by_cases h0 : existsPathB s (asset_local_name u d) = true
      · rw [m1 _ h0] at h; cases h
      · exact Bool.not_eq_true _ ▸ h0
  · by_cases heq : lookupFile s2.files p = lookupFile s1.files p
    · exact f1 p (by rw [← heq]; exact hp)
    · exact f2 p heq

theorem asset_local_name_under (url : String) (d : FsPath) :
    isUnder d (asset_local_name url d) := by
  simp only [asset_local_name]
  exact ⟨_, List.append_assoc _ _ _⟩

/-! ## Step invariants for the primitive operations -/

theorem stepInv_pushConsole (d : FsPath) (s : MirrorState) (m : String) :
    StepInv d s (pushConsole s m) :=
  ⟨fun _ h => h, fun _ hu => Or.inl hu, fun _ h => absurd rfl h⟩

theorem stepInv_ensure_dir (d : FsPath) (s : MirrorState) (p : FsPath) :
    StepInv d s (ensure_dir s p) :=
  ⟨fun q h => existsPathB_ensure_dir p h, fun _ hu => Or.inl hu, fun _ h => absurd rfl h⟩

theorem existsPathB_setFile {s : MirrorState} (target : FsPath) (c : String) {q : FsPath}
    (h : existsPathB s q = true) :
    existsPathB { s with files := setFile s.files target c } q = true := by
  simp only [existsPathB, Bool.or_eq_true] at h ⊢
  cases h with
  | inl hf =>
    left
    rw [lookupFile_setFile]
    split
    · rfl
    · exact hf
  | inr hd => exact Or.inr hd

theorem stepInv_setFile_under {d : FsPath} (s : MirrorState) (target : FsPath) (c : String)
    (hu : isUnder d target) :
    StepInv d s { s with files := setFile s.files target c } := by
  refine ⟨fun q h => existsPathB_setFile target c h, fun _ hu2 => Or.inl hu2, fun p hp => ?_⟩
  rw [show ({ s with files := setFile s.files target c } : MirrorState).files = setFile s.files target c from rfl,
     lookupFile_setFile] at hp
  by_cases hpt : p = target
  · rw [hpt]; exact hu
  · rw [if_neg hpt] at hp; exact absurd rfl hp

theorem stepInv_logAppend {d : FsPath} (s : MirrorState) (u : String)
    (hguard : existsPathB s (asset_local_name u d) = false) :
    StepInv d s { s with log := s.log ++ [u] } := by
  refine ⟨fun q h => h, fun u2 hu2 => ?_, fun _ h => absurd rfl h⟩
  rw [show ({ s with log := s.log ++ [u] } : MirrorState).log = s.log ++ [u] from rfl,
     List.mem_append] at hu2
  cases hu2 with
  | inl h => exact Or.inl h
  | inr h =>
    right
    rw [List.mem_singleton] at h
    rw [h]
    exact hguard


theorem download_file_log (net : Net) (s : MirrorState) (u : String) (target : FsPath) :
    (download_file net s u target).1.log = s.log ++ [u] := by
  unfold download_file
  cases net u <;> rfl

theorem download_file_console (net : Net) (s : MirrorState) (u : String) (target : FsPath) :
    (download_file net s u target).1.console = s.console := by
  unfold download_file
  cases net u <;> rfl

theorem download_file_files_none {net : Net} {u : String} (s : MirrorState) (target : FsPath)
    (h : net u = none) : (download_file net s u target).1.files = s.files := by
  unfold download_file
  rw [h]
  rfl

theorem download_file_files_some {net : Net} {u c : String} (s : MirrorState) (target : FsPath)
    (h : net u = some c) :
    (download_file net s u target).1.files = setFile s.files target c := by
  unfold download_file
  rw [h]
  rfl

theorem download_file_snd_none {net : Net} {u : String} (s : MirrorState) (target : FsPath)
    (h : net u = none) : (download_file net s u target).2 = some ("HTTPError " ++ u) := by
  unfold download_file
  rw [h]

theorem download_file_snd_some {net : Net} {u c : String} (s : MirrorState) (target : FsPath)
    (h : net u = some c) : (download_file net s u target).2 = none := by
  unfold download_file
  rw [h]

theorem download_file_dirs_mono (net : Net) (s : MirrorState) (u : String) (target : FsPath)
    {q : FsPath} (h : memB q s.dirs = true) :
    memB q (download_file net s u target).1.dirs = true := by
  unfold download_file
  cases hnet : net u with
  | none => exact foldl_addDir_keeps _ h
  | some c => exact foldl_addDir_keeps _ h

theorem download_file_dirs_creates (net : Net) (s : MirrorState) (u : String) (target : FsPath)
    (i : Nat) : memB (target.dropLast.take i) (download_file net s u target).1.dirs = true := by
  unfold download_file
  cases hnet : net u with
  | none => exact foldl_addDir_mem _ _ (take_mem_prefixesOf _ i)
  | some c => exact foldl_addDir_mem _ _ (take_mem_prefixesOf _ i)

theorem download_file_exists_mono (net : Net) (s : MirrorState) (u : String) (target : FsPath)
    {q : FsPath} (h : existsPathB s q = true) :
    existsPathB (download_file net s u target).1 q = true := by
  simp only [existsPathB, Bool.or_eq_true] at h ⊢
  cases h with
  | inl hf =>
    cases hnet : net u with
    | none => rw [download_file_files_none s target hnet]; exact Or.inl hf
    | some c =>
      rw [download_file_files_some s target hnet, lookupFile_setFile]
      split
      · exact Or.inl rfl
      · exact Or.inl hf
  | inr hd => exact Or.inr (download_file_dirs_mono net s u target hd)

theorem stepInv_download_file {d : FsPath} (net : Net) (s : MirrorState) (u : String)
    (hguard : existsPathB s (asset_local_name u d) = false) :
    StepInv d s (download_file net s u (asset_local_name u d)).1 := by
  refine ⟨fun q h => download_file_exists_mono net s u _ h, fun u2 hu2 => ?_, fun p hp => ?_⟩
  · rw [download_file_log, List.mem_append, List.mem_singleton] at hu2
    cases hu2 with
    | inl h => exact Or.inl h
    | inr h => exact Or.inr (h ▸ hguard)
  · cases hnet : net u with
    | none => rw [download_file_files_none s _ hnet] at hp; exact absurd rfl hp
    | some c =>
      rw [download_file_files_some s _ hnet, lookupFile_setFile] at hp
      by_cases hpt : p = asset_local_name u d
      · rw [hpt]; exact asset_local_name_under u d
      · rw [if_neg hpt] at hp; exact absurd rfl hp

theorem stepInv_cssRepl (d : FsPath) (net : Net) (base_url : String) ( pubPfx : String)
    (s : MirrorState) (g0 inner : String) :
    StepInv d s (cssRepl net base_url d pubPfx s g0 inner).1 := by
  unfold cssRepl
  dsimp only
  split
  · exact stepInv_refl d s
  · split
    · exact stepInv_refl d s
    · by_cases hex : existsPathB s (asset_local_name (urljoin base_url
        (⟨stripQuotes (stripWs inner.data)⟩ : String)) d) = true
      · rw [if_pos hex]
        exact stepInv_refl d s
      · rw [if_neg hex]
        rcases hdf : download_file net
          (pushConsole s ("[CSS] Lade " ++ urljoin base_url (⟨stripQuotes (stripWs inner.data)⟩ : String)))
          (urljoin base_url (⟨stripQuotes (stripWs inner.data)⟩ : String))
          (asset_local_name (urljoin base_url (⟨stripQuotes (stripWs inner.data)⟩ : String)) d)
          with ⟨s2, e?⟩
        have hstep : StepInv d s s2 := by
          refine stepInv_trans (stepInv_pushConsole d s
            ("[CSS] Lade " ++ urljoin base_url (⟨stripQuotes (stripWs inner.data)⟩ : String))) ?_
          have hdl := stepInv_download_file net
            (pushConsole s ("[CSS] Lade " ++ urljoin base_url (⟨stripQuotes (stripWs inner.data)⟩ : String)))
            (urljoin base_url (⟨stripQuotes (stripWs inner.data)⟩ : String))
            (by rw [existsPathB_pushConsole]; exact Bool.not_eq_true _ ▸ hex)
          rw [hdf] at hdl
          exact hdl
        cases e? with
        | none => exact hstep
        | some err => exact hstep

theorem stepInv_cssSubAux (d : FsPath)
    (repl : MirrorState → String → String → MirrorState × Except String String)
    (hrepl : ∀ s g0 i, StepInv d s (repl s g0 i).1) :
    ∀ (fuel : Nat) (s : MirrorState) (l : List Char),
      StepInv d s (cssSubAux repl fuel s l).1 := by
  intro fuel
  induction fuel with
  | zero => intro s l; exact stepInv_refl d s
  | succ f ih =>
    intro s l
    cases l with
    | nil => exact stepInv_refl d s
    | cons c0 rest0 =>
      simp only [cssSubAux]
      cases hm : matchUrlOpen (c0 :: rest0) with
      | none =>
        dsimp only
        rcases hrec : cssSubAux repl f s rest0 with ⟨s2, r2⟩
        have h2 := ih s rest0
        rw [hrec] at h2
        cases r2 with
        | error e => exact h2
        | ok tail => exact h2
      | some pr =>
        obtain ⟨open4, afterOpen⟩ := pr
        dsimp only
        cases hs : scanClose afterOpen with
        | none =>
          dsimp only
          rcases hrec : cssSubAux repl f s rest0 with ⟨s2, r2⟩
          have h2 := ih s rest0
          rw [hrec] at h2
          cases r2 with
          | error e => exact h2
          | ok tail => exact h2
        | some pr2 =>
          obtain ⟨inner, afterClose⟩ := pr2
          dsimp only
          rcases hr : repl s (⟨open4 ++ inner ++ [')']⟩ : String) (⟨inner⟩ : String) with ⟨s1, r⟩
          have h1 := hrepl s (⟨open4 ++ inner ++ [')']⟩ : String) (⟨inner⟩ : String)
          rw [hr] at h1
          cases r with
          | error e => exact h1
          | ok rep =>
            dsimp only
            rcases hrec : cssSubAux repl f s1 afterClose with ⟨s2, r2⟩
            have h2 := ih s1 afterClose
            rw [hrec] at h2
            cases r2 with
            | error e => exact stepInv_trans h1 h2
            | ok tail => exact stepInv_trans h1 h2

theorem stepInv_rewrite_css_urls (d : FsPath) (net : Net) (css_text base_url : String)
    ( pubPfx : String) (s : MirrorState) :
    StepInv d s (rewrite_css_urls net css_text base_url d pubPfx s).1 := by
  unfold rewrite_css_urls
  rcases hc : cssSubAux (cssRepl net base_url d pubPfx) css_text.data.length s css_text.data
    with ⟨s1, r⟩
  have h := stepInv_cssSubAux d (cssRepl net base_url d pubPfx)
    (fun s2 g0 i => stepInv_cssRepl d net base_url pubPfx s2 g0 i) css_text.data.length s css_text.data
  rw [hc] at h
  cases r with
  | error e => exact h
  | ok l => exact h

theorem stepInv_processAttrElem (d : FsPath) (net : Net) (start_url : String)
    ( pubPfx nm attr : String) (s : MirrorState) (e : Element) :
    StepInv d s (processAttrElem net start_url d pubPfx nm attr s e).1 := by
  unfold processAttrElem
  dsimp only
  split
  · cases hga : getAttr e attr with
    | none => exact stepInv_refl d s
    | some url_val =>
      dsimp only
      split
      · exact stepInv_refl d s
      · split
        · exact stepInv_refl d s
        · by_cases hex : existsPathB s (asset_local_name (urljoin start_url url_val) d) = true
          · rw [if_pos hex]
            exact stepInv_refl d s
          · rw [if_neg hex]
            rcases hdf : download_file net
              (pushConsole s ("[HTML] Lade " ++ urljoin start_url url_val))
              (urljoin start_url url_val)
              (asset_local_name (urljoin start_url url_val) d) with ⟨s2, e?⟩
            have hstep : StepInv d s s2 := by
              refine stepInv_trans (stepInv_pushConsole d s
                ("[HTML] Lade " ++ urljoin start_url url_val)) ?_
              have hdl := stepInv_download_file net
                (pushConsole s ("[HTML] Lade " ++ urljoin start_url url_val))
                (urljoin start_url url_val)
                (by rw [existsPathB_pushConsole]; exact Bool.not_eq_true _ ▸ hex)
              rw [hdf] at hdl
              exact hdl
            cases e? with
            | none => exact hstep
            | some err => exact stepInv_trans hstep (stepInv_pushConsole d s2 _)
  · exact stepInv_refl d s

theorem stepInv_processStyleTag (d : FsPath) (net : Net) (start_url : String)
    ( pubPfx : String) (s : MirrorState) (e : Element) :
    StepInv d s (processStyleTag net start_url d pubPfx s e).1 := by
  unfold processStyleTag
  split
  · cases hc : e.content with
    | none => exact stepInv_refl d s
    | some css =>
      dsimp only
      split
      · exact stepInv_refl d s
      · rcases hr : rewrite_css_urls net css start_url d pubPfx s with ⟨s1, r⟩
        have h := stepInv_rewrite_css_urls d net css start_url pubPfx s
        rw [hr] at h
        cases r with
        | error err => exact h
        | ok new_css => exact h
  · exact stepInv_refl d s

theorem stepInv_processStyleAttr (d : FsPath) (net : Net) (start_url : String)
    ( pubPfx : String) (s : MirrorState) (e : Element) :
    StepInv d s (processStyleAttr net start_url d pubPfx s e).1 := by
  unfold processStyleAttr
  cases hga : getAttr e "style" with
  | none => exact stepInv_refl d s
  | some css_inline =>
    dsimp only
    rcases hr : rewrite_css_urls net css_inline start_url d pubPfx s with ⟨s1, r⟩
    have h := stepInv_rewrite_css_urls d net css_inline start_url pubPfx s
    rw [hr] at h
    cases r with
    | error err => exact h
    | ok new_css => exact h

theorem stepInv_processLinkElem (d : FsPath) (net : Net) (start_url : String)
    ( pubPfx : String) (s : MirrorState) (e : Element) :
    StepInv d s (processLinkElem net start_url d pubPfx s e).1 := by
  unfold processLinkElem
  dsimp only
  split
  · cases hga : getAttr e "href" with
    | none => exact stepInv_refl d s
    | some href =>
      dsimp only
      split
      · exact stepInv_refl d s
      · split
        · exact stepInv_refl d s
        · by_cases hex : existsPathB s (asset_local_name (urljoin start_url href) d) = true
          · rw [if_pos hex]
            exact stepInv_refl d s
          · rw [if_neg hex]
            have hpush : StepInv d s (pushConsole s
                ("[CSS] Lade und verarbeite " ++ urljoin start_url href)) :=
              stepInv_pushConsole d s _
            have hlog : StepInv d s { pushConsole s
                ("[CSS] Lade und verarbeite " ++ urljoin start_url href) with
                log := (pushConsole s
                  ("[CSS] Lade und verarbeite " ++ urljoin start_url href)).log
                  ++ [urljoin start_url href] } := by
              refine stepInv_trans hpush (stepInv_logAppend _ _ ?_)
              rw [existsPathB_pushConsole]
              exact Bool.not_eq_true _ ▸ hex
            cases hnet : net (urljoin start_url href) with
            | none => exact stepInv_trans hlog (stepInv_pushConsole d _ _)
            | some css_body =>
              dsimp only
              rcases hr : rewrite_css_urls net css_body (urljoin start_url href) d pubPfx
                { pushConsole s ("[CSS] Lade und verarbeite " ++ urljoin start_url href) with
                  log := (pushConsole s
                    ("[CSS] Lade und verarbeite " ++ urljoin start_url href)).log
                    ++ [urljoin start_url href] } with ⟨s3, r⟩
              have hrw := stepInv_rewrite_css_urls d net css_body (urljoin start_url href) pubPfx
                { pushConsole s ("[CSS] Lade und verarbeite " ++ urljoin start_url href) with
                  log := (pushConsole s
                    ("[CSS] Lade und verarbeite " ++ urljoin start_url href)).log
                    ++ [urljoin start_url href] }
              rw [hr] at hrw
              have h3 : StepInv d s s3 := stepInv_trans hlog hrw
              cases r with
              | error err => exact stepInv_trans h3 (stepInv_pushConsole d s3 _)
              | ok new_css =>
                refine stepInv_trans h3 (stepInv_trans
                  (stepInv_ensure_dir d s3 (asset_local_name (urljoin start_url href) d).dropLast)
                  (stepInv_setFile_under _ _ new_css ?_))
                exact asset_local_name_under (urljoin start_url href) d
  · exact stepInv_refl d s

theorem stepInv_mapAccum (d : FsPath) (f : MirrorState → Element → MirrorState × Element)
    (hf : ∀ s e, StepInv d s (f s e).1) :
    ∀ (s : MirrorState) (doc : Doc), StepInv d s (mapAccum f s doc).1 := by
  intro s doc
  induction doc generalizing s with
  | nil => exact stepInv_refl d s
  | cons e es ih =>
    simp only [mapAccum]
    exact stepInv_trans (hf s e) (ih (f s e).1)

theorem stepInv_mapAccumE (d : FsPath)
    (f : MirrorState → Element → MirrorState × Except String Element)
    (hf : ∀ s e, StepInv d s (f s e).1) :
    ∀ (s : MirrorState) (doc : Doc), StepInv d s (mapAccumE f s doc).1 := by
  intro s doc
  induction doc generalizing s with
  | nil => exact stepInv_refl d s
  | cons e es ih =>
    simp only [mapAccumE]
    rcases hfe : f s e with ⟨s1, r⟩
    have h1 := hf s e
    rw [hfe] at h1
    cases r with
    | error err => exact h1
    | ok e1 =>
      dsimp only
      rcases hrec : mapAccumE f s1 es with ⟨s2, r2⟩
      have h2 := ih s1
      rw [hrec] at h2
      cases r2 with
      | error err => exact stepInv_trans h1 h2
      | ok es1 => exact stepInv_trans h1 h2

theorem stepInv_phase1 (d : FsPath) (net : Net) (start_url : String) ( pubPfx : String)
    (s : MirrorState) (doc : Doc) :
    StepInv d s (phase1 net start_url d pubPfx s doc).1 := by
  unfold phase1
  have hgen : ∀ (pairs : List (String × String)) (s0 : MirrorState) (doc0 : Doc),
      StepInv d s0 (pairs.foldl (fun acc pair =>
        mapAccum (processAttrElem net start_url d pubPfx pair.1 pair.2) acc.1 acc.2)
        (s0, doc0)).1 := by
    intro pairs
    induction pairs with
    | nil => intro s0 doc0; exact stepInv_refl d s0
    | cons pair rest ih =>
      intro s0 doc0
      simp only [List.foldl_cons]
      rcases hma : mapAccum (processAttrElem net start_url d pubPfx pair.1 pair.2) s0 doc0
        with ⟨s1, doc1⟩
      have h1 := stepInv_mapAccum d (processAttrElem net start_url d pubPfx pair.1 pair.2)
        (fun s2 e => stepInv_processAttrElem d net start_url pubPfx pair.1 pair.2 s2 e) s0 doc0
      rw [hma] at h1
      exact stepInv_trans h1 (ih s1 doc1)
  exact hgen tag_attr_pairs s doc

theorem preState_log (s0 : MirrorState) (out_dir : FsPath) (start_url : String) :
    (preState s0 out_dir start_url).log = s0.log := rfl

theorem stepInv_preState (d : FsPath) (s0 : MirrorState) (out_dir : FsPath)
    (start_url : String) : StepInv d s0 (preState s0 out_dir start_url) :=
  stepInv_trans (stepInv_ensure_dir d s0 out_dir)
    (stepInv_pushConsole d (ensure_dir s0 out_dir) ("Lade HTML: " ++ start_url))

theorem process_page_stepInv_pre_html (parse : String → Doc) (render : Doc → String)
    (net : Net) (start_url : String) (out_dir : FsPath) ( pubPfx html_name : String)
    (s0 : MirrorState) (html : String) (hnet : net start_url = some html) :
    ∃ s4 : MirrorState, StepInv (out_dir ++ ["assets"]) s0 s4 ∧
      (process_page parse render net start_url out_dir pubPfx html_name s0).1.log = s4.log ∧
      ((process_page parse render net start_url out_dir pubPfx html_name s0).2.isOk = false →
        (process_page parse render net start_url out_dir pubPfx html_name s0).1 = s4) := by
  unfold process_page
  rw [hnet]
  dsimp only
  rcases hp1 : phase1 net start_url (out_dir ++ ["assets"]) pubPfx
      (preState s0 out_dir start_url) (parse html) with ⟨s1, doc1⟩
  have h1 : StepInv (out_dir ++ ["assets"]) s0 s1 := by
    have h := stepInv_phase1 (out_dir ++ ["assets"]) net start_url pubPfx
      (preState s0 out_dir start_url) (parse html)
    rw [hp1] at h
    exact stepInv_trans (stepInv_preState _ s0 out_dir start_url) h
  rcases h2a : mapAccumE (processStyleTag net start_url (out_dir ++ ["assets"]) pubPfx) s1 doc1
    with ⟨s2, r2⟩
  have h2 : StepInv (out_dir ++ ["assets"]) s0 s2 := by
    have h := stepInv_mapAccumE (out_dir ++ ["assets"]) _
      (fun s e => stepInv_processStyleTag (out_dir ++ ["assets"]) net start_url pubPfx s e) s1 doc1
    rw [h2a] at h
    exact stepInv_trans h1 h
  cases r2 with
  | error err => exact ⟨s2, h2, rfl, fun _ => rfl⟩
  | ok doc2 =>
    dsimp only
    rcases h2b : mapAccumE (processStyleAttr net start_url (out_dir ++ ["assets"]) pubPfx) s2 doc2
      with ⟨s3, r3⟩
    have h3 : StepInv (out_dir ++ ["assets"]) s0 s3 := by
      have h := stepInv_mapAccumE (out_dir ++ ["assets"]) _
        (fun s e => stepInv_processStyleAttr (out_dir ++ ["assets"]) net start_url pubPfx s e) s2 doc2
      rw [h2b] at h
      exact stepInv_trans h2 h
    cases r3 with
    | error err => exact ⟨s3, h3, rfl, fun _ => rfl⟩
    | ok doc3 =>
      dsimp only
      rcases h3c : mapAccum (processLinkElem net start_url (out_dir ++ ["assets"]) pubPfx) s3 doc3
        with ⟨s4, doc4⟩
      have h4 : StepInv (out_dir ++ ["assets"]) s0 s4 := by
        have h := stepInv_mapAccum (out_dir ++ ["assets"]) _
          (fun s e => stepInv_processLinkElem (out_dir ++ ["assets"]) net start_url pubPfx s e) s3 doc3
        rw [h3c] at h
        exact stepInv_trans h3 h
      refine ⟨s4, h4, rfl, fun hko => ?_⟩
      simp [Except.isOk, Except.toBool] at hko

theorem process_page_log (parse : String → Doc) (render : Doc → String) (net : Net)
    (start_url : String) (out_dir : FsPath) ( pubPfx html_name : String) (s0 : MirrorState)
    (u : String)
    (hu : u ∈ (process_page parse render net start_url out_dir pubPfx html_name s0).1.log) :
    u ∈ s0.log ∨ existsPathB s0 (asset_local_name u (out_dir ++ ["assets"])) = false := by
  cases hnet : net start_url with
  | none =>
    unfold process_page at hu
    rw [hnet] at hu
    exact Or.inl hu
  | some html =>
    obtain ⟨s4, hstep, hlog, _⟩ := process_page_stepInv_pre_html parse render net start_url
      out_dir pubPfx html_name s0 html hnet
    rw [hlog] at hu
    exact hstep.2.1 u hu

theorem process_page_styleTag_error (parse : String → Doc) (render : Doc → String)
    (net : Net) (start_url : String) (out_dir : FsPath) ( pubPfx html_name : String)
    (s0 : MirrorState) (html : String) (s2 : MirrorState) (err : String)
    (hnet : net start_url = some html)
    (herr : mapAccumE (processStyleTag net start_url (out_dir ++ ["assets"]) pubPfx)
      (phase1 net start_url (out_dir ++ ["assets"]) pubPfx
        (preState s0 out_dir start_url) (parse html)).1
      (phase1 net start_url (out_dir ++ ["assets"]) pubPfx
        (preState s0 out_dir start_url) (parse html)).2 = (s2, .error err)) :
    process_page parse render net start_url out_dir pubPfx html_name s0 = (s2, .error err) := by
  unfold process_page
  rw [hnet]
  dsimp only
  rw [herr]

theorem process_page_styleAttr_error (parse : String → Doc) (render : Doc → String)
    (net : Net) (start_url : String) (out_dir : FsPath) ( pubPfx html_name : String)
    (s0 : MirrorState) (html : String) (s2 s3 : MirrorState) (doc2 : Doc) (err : String)
    (hnet : net start_url = some html)
    (h2a : mapAccumE (processStyleTag net start_url (out_dir ++ ["assets"]) pubPfx)
      (phase1 net start_url (out_dir ++ ["assets"]) pubPfx
        (preState s0 out_dir start_url) (parse html)).1
      (phase1 net start_url (out_dir ++ ["assets"]) pubPfx
        (preState s0 out_dir start_url) (parse html)).2 = (s2, .ok doc2))
    (herr : mapAccumE (processStyleAttr net start_url (out_dir ++ ["assets"]) pubPfx) s2 doc2
      = (s3, .error err)) :
    process_page parse render net start_url out_dir pubPfx html_name s0 = (s3, .error err) := by
  unfold process_page
  rw [hnet]
  dsimp only
  rw [h2a]
  dsimp only
  rw [herr]

/-! ## Element preservation and data-URI facts -/

theorem mapAccum_preserve (f : MirrorState → Element → MirrorState × Element) (e : Element)
    (hf : ∀ s, (f s e).2 = e) :
    ∀ (s : MirrorState) (doc : Doc) (i : Nat), doc.get? i = some e →
      (mapAccum f s doc).2.get? i = some e := by
  intro s doc
  induction doc generalizing s with
  | nil => intro i h; simp at h
  | cons a as ih =>
    intro i h
    cases i with
    | zero =>
      simp only [List.get?] at h
      injection h with h
      simp only [mapAccum, List.get?]
      rw [h, hf s]
    | succ j =>
      simp only [List.get?] at h
      simp only [mapAccum, List.get?]
      exact ih (f s a).1 j h

theorem mapAccumE_preserve (f : MirrorState → Element → MirrorState × Except String Element)
    (e : Element) (hf : ∀ s, (f s e).2 = Except.ok e) :
    ∀ (s : MirrorState) (doc : Doc) (i : Nat) (s2 : MirrorState) (doc2 : Doc),
      doc.get? i = some e → mapAccumE f s doc = (s2, .ok doc2) → doc2.get? i = some e := by
  intro s doc
  induction doc generalizing s with
  | nil =>
    intro i s2 doc2 h hm
    simp at h
  | cons a as ih =>
    intro i s2 doc2 h hm
    simp only [mapAccumE] at hm
    rcases hfe : f s a with ⟨s1, r⟩
    rw [hfe] at hm
    cases r with
    | error err => simp at hm
    | ok a1 =>
      dsimp only at hm
      rcases hrec : mapAccumE f s1 as with ⟨s3, r3⟩
      rw [hrec] at hm
      cases r3 with
      | error err => simp at hm
      | ok as1 =>
        dsimp only at hm
        have hd : (Except.ok (a1 :: as1) : Except String Doc) = Except.ok doc2 :=
          congrArg Prod.snd hm
        have hdoc : doc2 = a1 :: as1 := (Except.ok.inj hd).symm
        rw [hdoc]
        cases i with
        | zero =>
          simp only [List.get?] at h
          injection h with h
          have h1 := hf s
          rw [h] at hfe
          rw [hfe] at h1
          simp only [List.get?]
          exact congrArg some (Except.ok.inj h1)
        | succ j =>
          simp only [List.get?] at h
          simp only [List.get?]
          exact ih s1 j s3 as1 h hrec

theorem urlparse_scheme_eq (v ds : String) :
    (urlparse v ds).scheme = (urlsplitL v ds).scheme := by
  unfold urlparse
  dsimp only
  split <;> rfl

theorem data_url_scheme {v : String} (ds : String) (h : strStartsWith v "data:" = true) :
    (urlparse v ds).scheme = "data" := by
  obtain ⟨t, ht⟩ := startsWithL_exists h
  have hv : v.data = 'd' :: 'a' :: 't' :: 'a' :: ':' :: t := by
    rw [ht]; rfl
  rw [urlparse_scheme_eq]
  unfold urlsplitL
  rw [hv]
  simp [lstripC0, removeUnsafe, findCharIdx, lowerL, List.dropWhile_cons, List.filter]
  rw [if_pos (by decide)]

theorem should_download_data {v : String} (h : strStartsWith v "data:" = true) :
    should_download_asset v = false := by
  unfold should_download_asset
  dsimp only
  rw [if_pos (Or.inl (data_url_scheme "" h))]

theorem urljoin_data {b v : String} (h : strStartsWith v "data:" = true) :
    urljoin b v = v := by
  have hvne : v ≠ "" := by
    intro hveq
    rw [hveq] at h
    simp [strStartsWith, startsWithL] at h
  unfold urljoin
  by_cases hb : b = ""
  · rw [if_pos hb]
  · rw [if_neg hb, if_neg hvne]
    dsimp only
    have hds := data_url_scheme (urlparse b "").scheme h
    by_cases hbs : (urlparse b "").scheme = "data"
    · rw [if_pos (Or.inr (by rw [hds]; decide))]
    · rw [if_pos (Or.inl (by rw [hds]; exact fun hh => hbs hh.symm))]

theorem processAttrElem_keep_name {net : Net} {su : String} {d : FsPath}
    { pf nm attr : String} {s : MirrorState} {e : Element} (hne : ¬(e.name = nm)) :
    processAttrElem net su d pf nm attr s e = (s, e) := by
  unfold processAttrElem
  rw [if_neg hne]

theorem processAttrElem_data {net : Net} {su : String} {d : FsPath}
    { pf nm attr : String} {s : MirrorState} {e : Element} {v : String}
    (hga : getAttr e attr = some v) (hd : strStartsWith v "data:" = true) :
    processAttrElem net su d pf nm attr s e = (s, e) := by
  unfold processAttrElem
  by_cases hn : e.name = nm
  · rw [if_pos hn, hga]
    dsimp only
    have hvne : ¬(v = "") := by
      intro hveq
      rw [hveq] at hd
      simp [strStartsWith, startsWithL] at hd
    rw [if_neg hvne]
    have hc : ¬(should_download_asset (urljoin su v) = true) := by
      rw [urljoin_data hd, should_download_data hd]
      simp
    rw [if_pos hc]
  · rw [if_neg hn]

theorem processStyleTag_not_style {net : Net} {su : String} {d : FsPath}
    { pf : String} {s : MirrorState} {e : Element} (hn : ¬(e.name = "style")) :
    processStyleTag net su d pf s e = (s, .ok e) := by
  unfold processStyleTag
  rw [if_neg hn]

theorem processStyleAttr_none {net : Net} {su : String} {d : FsPath}
    { pf : String} {s : MirrorState} {e : Element} (hs : getAttr e "style" = none) :
    processStyleAttr net su d pf s e = (s, .ok e) := by
  unfold processStyleAttr
  rw [hs]

theorem processLinkElem_not_link {net : Net} {su : String} {d : FsPath}
    { pf : String} {s : MirrorState} {e : Element} (hn : ¬(e.name = "link")) :
    processLinkElem net su d pf s e = (s, e) := by
  unfold processLinkElem
  dsimp only
  rw [if_neg (fun hc => hn hc.1)]

theorem foldl_attr_preserve (net : Net) (su : String) (d : FsPath) ( pf : String)
    (pairs : List (String × String)) (e : Element)
    (hf : ∀ p, p ∈ pairs → ∀ s, (processAttrElem net su d pf p.1 p.2 s e).2 = e) :
    ∀ (s : MirrorState) (doc : Doc) (i : Nat), doc.get? i = some e →
      ((pairs.foldl (fun acc pair =>
        mapAccum (processAttrElem net su d pf pair.1 pair.2) acc.1 acc.2) (s, doc)).2).get? i
        = some e := by
  induction pairs with
  | nil => intro s doc i h; exact h
  | cons p rest ih =>
    intro s doc i h
    simp only [List.foldl_cons]
    rcases hma : mapAccum (processAttrElem net su d pf p.1 p.2) s doc with ⟨s1, doc1⟩
    have h1 : doc1.get? i = some e := by
      have := mapAccum_preserve (processAttrElem net su d pf p.1 p.2) e
        (hf p (List.mem_cons_self p rest)) s doc i h
      rw [hma] at this
      exact this
    exact ih (fun p2 hp2 => hf p2 (List.mem_cons_of_mem p hp2)) s1 doc1 i h1

/-! ## `splitext` structure lemmas -/

theorem splitextL_append (p : List Char) : (splitextL p).1 ++ (splitextL p).2 = p := by
  unfold splitextL
  cases h : lastIdxOf '.' p with
  | none => simp
  | some d =>
    show (if ((p.take d).all fun c => decide (c = '.')) = true then (p, ([] : List Char))
        else (p.take d, p.drop d)).1 ++
      (if ((p.take d).all fun c => decide (c = '.')) = true then (p, ([] : List Char))
        else (p.take d, p.drop d)).2 = p
    by_cases hdots : ((p.take d).all fun c => decide (c = '.')) = true
    · rw [if_pos hdots]
      simp
    · rw [if_neg hdots]
      exact List.take_append_drop d p

theorem findCharIdx_spec {c : Char} {l : List Char} {i : Nat}
    (h : findCharIdx c l = some i) : i < l.length ∧ l.get? i = some c := by
  induction l generalizing i with
  | nil => simp [findCharIdx] at h
  | cons x xs ih =>
    unfold findCharIdx at h
    by_cases hx : x = c
    · rw [if_pos hx] at h
      injection h with h
      rw [← h]
      exact ⟨Nat.succ_pos _, by rw [hx]; rfl⟩
    · rw [if_neg hx] at h
      cases hf : findCharIdx c xs with
      | none => rw [hf] at h; simp at h
      | some j =>
        rw [hf] at h
        have h2 : some (j + 1) = some i := h
        injection h2 with h2
        obtain ⟨hlt, hget⟩ := ih hf
        rw [← h2]
        exact ⟨Nat.succ_lt_succ hlt, hget⟩

theorem lastIdxOf_get {c : Char} {l : List Char} {i : Nat}
    (h : lastIdxOf c l = some i) : l.get? i = some c := by
  unfold lastIdxOf at h
  cases hf : findCharIdx c l.reverse with
  | none => rw [hf] at h; simp at h
  | some j =>
    rw [hf] at h
    injection h with h
    obtain ⟨hlt, hget⟩ := findCharIdx_spec hf
    rw [List.length_reverse] at hlt
    rw [← h]
    rw [← List.get?_reverse hlt]
    exact hget

theorem head?_drop_eq_get? (l : List Char) (n : Nat) : (l.drop n).head? = l.get? n := by
  induction l generalizing n with
  | nil => cases n <;> rfl
  | cons x xs ih =>
    cases n with
    | zero => rfl
    | succ m => exact ih m

theorem splitextL_snd_head {p : List Char} (h : (splitextL p).2 ≠ []) :
    (splitextL p).2.head? = some '.' := by
  unfold splitextL at h ⊢
  cases hl : lastIdxOf '.' p with
  | none =>
    rw [hl] at h
    have h2 : (p, ([] : List Char)).2 ≠ [] := h
    exact absurd rfl h2
  | some d =>
    rw [hl] at h
    have h2 : (if ((p.take d).all fun c => decide (c = '.')) = true then (p, ([] : List Char))
        else (p.take d, p.drop d)).2 ≠ [] := h
    show (if ((p.take d).all fun c => decide (c = '.')) = true then (p, ([] : List Char))
        else (p.take d, p.drop d)).2.head? = some '.'
    split at h2
    · exact absurd rfl h2
    · rename_i hdots
      rw [if_neg hdots]
      show (p.drop d).head? = some '.'
      rw [head?_drop_eq_get?]
      exact lastIdxOf_get hl

theorem endsWith_mid (A B E : List Char) : endsWithL (A ++ '_' :: (B ++ E)) E = true := by
  have h : A ++ '_' :: (B ++ E) = (A ++ '_' :: B) ++ E := by simp
  rw [h]
  exact endsWithL_append _ _

/-! ## Claim theorems -/

/-- Claim C5: `should_download_asset` returns false for every URL whose scheme
is `data`, `mailto` or `javascript`, and for any other URL returns true exactly
when the URL's path component, lower-cased, ends with one of the sixteen
extensions the specification enumerates; in the model it is a pure function of
the URL string with no side effects. -/
theorem C5_classifier (url : String) :
    (((urlparse url "").scheme = "data" ∨ (urlparse url "").scheme = "mailto" ∨
      (urlparse url "").scheme = "javascript") → should_download_asset url = false) ∧
    (¬((urlparse url "").scheme = "data" ∨ (urlparse url "").scheme = "mailto" ∨
      (urlparse url "").scheme = "javascript") →
      (should_download_asset url = true ↔
        specAssetExtensions.any
          (fun ext => strEndsWith (strLower (urlparse url "").path) ext) = true)) := by
  constructor
  · intro h
    unfold should_download_asset
    dsimp only
    rw [if_pos h]
  · intro h
    unfold should_download_asset
    dsimp only
    rw [if_neg h]
    have hperm : ASSET_EXTENSIONS.Perm specAssetExtensions := by decide
    have hsets : ∀ x : String, x ∈ ASSET_EXTENSIONS ↔ x ∈ specAssetExtensions :=
      fun x => hperm.mem_iff
    simp only [List.any_eq_true]
    constructor
    · rintro ⟨x, hm, hp⟩
      exact ⟨x, (hsets x).mp hm, hp⟩
    · rintro ⟨x, hm, hp⟩
      exact ⟨x, (hsets x).mpr hm, hp⟩

theorem C5_classifier_witness :
    should_download_asset "data:image/png;base64,x" = false ∧
    should_download_asset "https://x.com/a/b.png" = true := by
  constructor
  · exact (C5_classifier "data:image/png;base64,x").1 (by decide)
  · exact ((C5_classifier "https://x.com/a/b.png").2 (by decide)).mpr (by decide)

/-- Claim C6: `asset_local_name` is `base_dir` joined with the URL path's
directory part (leading slashes removed, split into `pathlib` segments) and
the computed filename; the result therefore lies beneath `base_dir` and
mirrors the remote hierarchy, e.g. `/static/img/logo.png` maps to
`base_dir/static/img/logo.png`. -/
theorem C6_path_structure :
    (∀ (url : String) (base_dir : FsPath), ∃ fn : String,
      asset_local_name url base_dir = base_dir
        ++ pathSegs (dirnameL (lstripSlash
          (if (urlparse url "").path = "" then "/unnamed"
           else (urlparse url "").path).data)) ++ [fn]) ∧
    (∀ (url : String) (base_dir : FsPath), isUnder base_dir (asset_local_name url base_dir)) ∧
    (∀ base_dir : FsPath,
      asset_local_name "https://example.com/static/img/logo.png" base_dir
        = base_dir ++ ["static", "img", "logo.png"]) := by
  refine ⟨fun url base_dir => ?_, fun url base_dir => asset_local_name_under url base_dir,
    fun base_dir => ?_⟩
  · unfold asset_local_name
    dsimp only
    exact ⟨_, rfl⟩
  · unfold asset_local_name
    dsimp only
    rw [List.append_assoc]
    congr 1

/-- Claim C10: when the request fails, `download_file` reports the failure
without writing any bytes (the file map is untouched, so a pre-existing file
at `target` keeps its content), yet it has already created every parent
directory of the target; the failing GET is still issued (logged). -/
theorem C10_download_failure (net : Net) (s : MirrorState) (url : String) (target : FsPath)
    (hfail : net url = none) :
    (download_file net s url target).2 = some ("HTTPError " ++ url) ∧
    (download_file net s url target).1.files = s.files ∧
    (∀ i : Nat, memB (target.dropLast.take i) (download_file net s url target).1.dirs = true) ∧
    (∀ q, memB q s.dirs = true → memB q (download_file net s url target).1.dirs = true) ∧
    (download_file net s url target).1.log = s.log ++ [url] :=
  ⟨download_file_snd_none s target hfail, download_file_files_none s target hfail,
   fun i => download_file_dirs_creates net s url target i,
   fun _ h => download_file_dirs_mono net s url target h,
   download_file_log net s url target⟩

theorem C10_download_failure_witness :
    (download_file mirrorNet emptyState "http://nope/a.png" ["out", "assets", "a.png"]).2
      = some ("HTTPError " ++ "http://nope/a.png") ∧
    (download_file mirrorNet emptyState "http://nope/a.png" ["out", "assets", "a.png"]).1.files
      = emptyState.files ∧
    memB (["out", "assets", "a.png"].dropLast.take 2)
      (download_file mirrorNet emptyState "http://nope/a.png" ["out", "assets", "a.png"]).1.dirs
      = true := by
  have h := C10_download_failure mirrorNet emptyState "http://nope/a.png"
    ["out", "assets", "a.png"] (by decide)
  exact ⟨h.1, h.2.1, h.2.2.1 2⟩

/-- Claim C3 is false as stated: the URLs `http://x/a.png?a&b` and
`http://x/a.png?a=b` differ only in their query strings, yet both queries
sanitize to `a_b` and the two URLs map to the same local path. -/
theorem C3_query_disambiguation_counterexample :
    (urlparse "http://x/a.png?a&b" "").scheme = (urlparse "http://x/a.png?a=b" "").scheme ∧
    (urlparse "http://x/a.png?a&b" "").netloc = (urlparse "http://x/a.png?a=b" "").netloc ∧
    (urlparse "http://x/a.png?a&b" "").path = (urlparse "http://x/a.png?a=b" "").path ∧
    (urlparse "http://x/a.png?a&b" "").params = (urlparse "http://x/a.png?a=b" "").params ∧
    (urlparse "http://x/a.png?a&b" "").fragment = (urlparse "http://x/a.png?a=b" "").fragment ∧
    ¬((urlparse "http://x/a.png?a&b" "").query = (urlparse "http://x/a.png?a=b" "").query) ∧
    asset_local_name "http://x/a.png?a&b" ["assets"]
      = asset_local_name "http://x/a.png?a=b" ["assets"] := by
  decide

theorem no_query_marker (f2 sq ext : List Char) :
    f2 ≠ (splitextL f2).1 ++ '_' :: (sq ++ ext) := by
  intro h
  have hsp := splitextL_append f2
  have hext := List.append_cancel_left (hsp.trans h)
  cases hE : (splitextL f2).2 with
  | nil =>
    rw [hE] at hext
    exact List.noConfusion hext
  | cons c cs =>
    have hh := splitextL_snd_head (show (splitextL f2).2 ≠ [] by rw [hE]; simp)
    rw [hE] at hh hext
    have hc : some c = some '.' := hh
    injection hc with hc
    have hc2 : c = '_' := (List.cons.inj hext).1
    rw [hc] at hc2
    exact absurd hc2 (by decide)

/-- Distinct sanitized queries yield distinct final filenames (the `_`-marked
query infix cannot be confused with a query-free name, because a `splitext`
stem never continues with `_` where an extension dot would be). -/
theorem filename3_inj (f2 ext : List Char) (q1 q2 : String)
    (hq : sanitizeQ q1.data ≠ sanitizeQ q2.data) :
    (if q1 ≠ "" then (splitextL f2).1 ++ '_' :: sanitizeQ q1.data ++ ext else f2)
    ≠ (if q2 ≠ "" then (splitextL f2).1 ++ '_' :: sanitizeQ q2.data ++ ext else f2) := by
  by_cases h1 : q1 = ""
  · by_cases h2 : q2 = ""
    · rw [h1, h2] at hq
      exact absurd rfl hq
    · rw [if_neg (fun hc => hc h1), if_pos h2]
      intro hf
      rw [List.append_assoc] at hf
      exact no_query_marker _ _ _ hf
  · by_cases h2 : q2 = ""
    · rw [if_pos h1, if_neg (fun hc => hc h2)]
      intro hf
      have hf2 := hf.symm
      rw [List.append_assoc] at hf2
      exact no_query_marker _ _ _ hf2
    · rw [if_pos h1, if_pos h2]
      intro hf
      have h3 := List.append_cancel_right hf
      have h4 := List.append_cancel_left h3
      have h5 := (List.cons.inj h4).2
      exact hq h5

/-- Claim C3 amended: two URLs with the same parsed path map to distinct local
paths whenever their sanitized query strings differ — in particular whenever
the queries differ within the preserved character class `[0-9A-Za-z._-]`, or
when exactly one query is empty; queries whose sanitized forms coincide (such
as `a&b` and `a=b`) collide on the same local path. -/
theorem C3_query_disambiguation_amended (u1 u2 : String) (d : FsPath)
    (hpath : (urlparse u1 "").path = (urlparse u2 "").path)
    (hq : sanitizeQ (urlparse u1 "").query.data ≠ sanitizeQ (urlparse u2 "").query.data) :
    asset_local_name u1 d ≠ asset_local_name u2 d := by
  intro heq
  unfold asset_local_name at heq
  dsimp only at heq
  rw [hpath] at heq
  have hfn := List.append_cancel_left heq
  have hfs := (List.cons.inj hfn).1
  have hf := congrArg String.data hfs
  exact filename3_inj _ _ _ _ hq hf

theorem C3_query_disambiguation_amended_witness :
    ¬(asset_local_name "http://x/a.png?v=1" ["assets"]
      = asset_local_name "http://x/a.png?v=2" ["assets"]) :=
  C3_query_disambiguation_amended "http://x/a.png?v=1" "http://x/a.png?v=2" ["assets"]
    (by decide) (by decide)

/-- Claim C7 fails as stated: for the URL `http://x/..` the basename `..` has
no extension, `.bin` is appended giving `...bin`, and the mapped filename's
own extension under `os.path.splitext` semantics is empty (the name consists
of leading dots), so the mapped path does not have a non-empty extension. -/
theorem C7_extension_counterexample :
    asset_local_name "http://x/.." ["assets"] = ["assets", "...bin"] ∧
    (splitextL (basenameL (urlparse "http://x/.." "").path.data)).2 = [] ∧
    (splitextL "...bin".data).2 = [] := by
  decide

theorem filename3_ends (f1 : List Char) (q : String) :
    ∃ ext1 : List Char, ext1 ≠ [] ∧ ext1.head? = some '.' ∧
      endsWithL (if q ≠ "" then
          (splitextL (if (splitextL f1).2 = [] then f1 ++ ".bin".data else f1)).1
            ++ '_' :: sanitizeQ q.data
            ++ (if (splitextL f1).2 = [] then ".bin".data else (splitextL f1).2)
        else (if (splitextL f1).2 = [] then f1 ++ ".bin".data else f1)) ext1 = true := by
  by_cases h0 : (splitextL f1).2 = []
  · by_cases hqe : q = ""
    · refine ⟨".bin".data, by decide, by decide, ?_⟩
      rw [if_neg (fun hc => hc hqe), if_pos h0]
      exact endsWithL_append f1 ".bin".data
    · refine ⟨".bin".data, by decide, by decide, ?_⟩
      rw [if_pos hqe, if_pos h0, if_pos h0]
      exact endsWithL_append _ _
  · by_cases hqe : q = ""
    · refine ⟨(splitextL f1).2, h0, splitextL_snd_head h0, ?_⟩
      rw [if_neg (fun hc => hc hqe), if_neg h0]
      have h := endsWithL_append (splitextL f1).1 (splitextL f1).2
      rw [splitextL_append] at h
      exact h
    · refine ⟨(splitextL f1).2, h0, splitextL_snd_head h0, ?_⟩
      rw [if_pos hqe, if_neg h0, if_neg h0]
      exact endsWithL_append _ _

/-- Claim C7 amended: every mapped filename ends with a nonempty suffix that
begins with a dot — the original basename's `splitext` extension when present,
else the appended `.bin` (`unnamed.bin` for an empty path, `index.bin` for a
trailing slash) — but the filename's own `splitext` extension may still be
empty when the URL basename consists only of dots (e.g. `/..` maps to
`...bin`), so the unconditional non-empty-extension guarantee does not hold. -/
theorem C7_extension_amended (url : String) (base_dir : FsPath) :
    (∃ (pre : FsPath) (fn : String) (ext1 : List Char),
      asset_local_name url base_dir = pre ++ [fn] ∧ ext1 ≠ [] ∧
      ext1.head? = some '.' ∧ endsWithL fn.data ext1 = true) ∧
    ((urlparse url "").path = "" → (urlparse url "").query = "" →
      asset_local_name url base_dir = base_dir ++ ["unnamed.bin"]) ∧
    ((urlparse url "").path ≠ "" → basenameL (urlparse url "").path.data = [] →
      (urlparse url "").query = "" →
      asset_local_name url base_dir = base_dir
        ++ pathSegs (dirnameL (lstripSlash (urlparse url "").path.data)) ++ ["index.bin"]) := by
  refine ⟨?_, ?_, ?_⟩
  · unfold asset_local_name
    dsimp only
    obtain ⟨ext1, hne, hhd, hend⟩ := filename3_ends
      (if basenameL (if (urlparse url "").path = "" then "/unnamed"
          else (urlparse url "").path).data = [] then "index".data
        else basenameL (if (urlparse url "").path = "" then "/unnamed"
          else (urlparse url "").path).data)
      (urlparse url "").query
    exact ⟨_, _, ext1, rfl, hne, hhd, hend⟩
  · intro hp hq
    unfold asset_local_name
    dsimp only
    rw [hp, if_pos rfl, hq, if_neg (fun hc => hc rfl)]
    rw [List.append_assoc]
    congr 1
  · intro hp hb hq
    unfold asset_local_name
    dsimp only
    rw [if_neg hp, hb, if_pos rfl, hq, if_neg (fun hc => hc rfl)]
    congr 1

theorem C7_extension_amended_witness :
    asset_local_name "http://x" ["a"] = ["a"] ++ ["unnamed.bin"] :=
  (C7_extension_amended "http://x" ["a"]).2.1 (by decide) (by decide)

/-- Claim C8: whenever the classifier accepts the URL captured by a
`url(...)` match (and the asset is on disk or the download succeeds), the
match is replaced with `url('<public_prefix>/<path relative to assets_dir>')`;
concretely, rewriting `body { background: url(img/bg.png); }` against
`https://example.com/` produces `url('/assets/img/bg.png')` and triggers
exactly one download, of `https://example.com/img/bg.png`. -/
theorem C8_css_rewrite :
    (∀ (net : Net) (b : String) (d : FsPath) ( pf : String) (s : MirrorState)
      (g0 inner c : String),
      ¬((⟨stripQuotes (stripWs inner.data)⟩ : String) = "" ∨
        strStartsWith (⟨stripQuotes (stripWs inner.data)⟩ : String) "data:" = true) →
      should_download_asset (urljoin b (⟨stripQuotes (stripWs inner.data)⟩ : String)) = true →
      (existsPathB s (asset_local_name
          (urljoin b (⟨stripQuotes (stripWs inner.data)⟩ : String)) d) = true ∨
        net (urljoin b (⟨stripQuotes (stripWs inner.data)⟩ : String)) = some c) →
      (cssRepl net b d pf s g0 inner).2 = .ok ("url(" ++ sQ
        ++ ( pf ++ "/" ++ relToAssets (asset_local_name
          (urljoin b (⟨stripQuotes (stripWs inner.data)⟩ : String)) d) d) ++ sQ ++ ")")) ∧
    ((rewrite_css_urls mirrorNet "body \x7b background: url(img/bg.png); \x7d"
        "https://example.com/" ["out", "assets"] "/assets" emptyState).2
      = .ok "body \x7b background: url(\x27/assets/img/bg.png\x27); \x7d" ∧
     (rewrite_css_urls mirrorNet "body \x7b background: url(img/bg.png); \x7d"
        "https://example.com/" ["out", "assets"] "/assets" emptyState).1.log
      = ["https://example.com/img/bg.png"]) := by
  constructor
  · intro net b d pf s g0 inner c h1 h2 h3
    unfold cssRepl
    dsimp only
    rw [if_neg h1, if_neg (fun hc => hc h2)]
    by_cases hex : existsPathB s (asset_local_name
        (urljoin b (⟨stripQuotes (stripWs inner.data)⟩ : String)) d) = true
    · rw [if_pos hex]
    · rw [if_neg hex]
      have hnet := h3.resolve_left hex
      rcases hdf : download_file net
        (pushConsole s ("[CSS] Lade " ++ urljoin b (⟨stripQuotes (stripWs inner.data)⟩ : String)))
        (urljoin b (⟨stripQuotes (stripWs inner.data)⟩ : String))
        (asset_local_name (urljoin b (⟨stripQuotes (stripWs inner.data)⟩ : String)) d)
        with ⟨s2, e?⟩
      have hsnd := download_file_snd_some
        (pushConsole s ("[CSS] Lade " ++ urljoin b (⟨stripQuotes (stripWs inner.data)⟩ : String)))
        (asset_local_name (urljoin b (⟨stripQuotes (stripWs inner.data)⟩ : String)) d) hnet
      rw [hdf] at hsnd
      have he : e? = none := hsnd
      rw [he]
  · exact ⟨by decide, by decide⟩

theorem C8_css_rewrite_witness :
    (cssRepl mirrorNet "https://example.com/" ["out", "assets"] "/assets" emptyState
      "url(img/bg.png)" "img/bg.png").2
    = .ok ("url(" ++ sQ ++ ("/assets" ++ "/" ++ relToAssets
        (asset_local_name (urljoin "https://example.com/"
          (⟨stripQuotes (stripWs "img/bg.png".data)⟩ : String)) ["out", "assets"])
        ["out", "assets"]) ++ sQ ++ ")") :=
  C8_css_rewrite.1 mirrorNet "https://example.com/" ["out", "assets"] "/assets" emptyState
    "url(img/bg.png)" "img/bg.png" "PNG" (by decide) (by decide) (Or.inr (by decide))

/-- Claim C1, evaluated at a failing input (code bug): for a page whose only
tag is `<link rel="stylesheet" href="main.css">`, the direct-attribute phase
downloads the stylesheet as an ordinary asset and stores its RAW text at the
mapped path `out/assets/main.css`, then rewrites the href to
`/assets/main.css`; the external-stylesheet phase afterwards resolves that
already-rewritten href to `http://ex.com/assets/main.css` (a different URL and
path), so the file at the stylesheet's mapped path never receives the
CSS-rewriter output, which would have been `url('/assets/bg.png')`. -/
theorem C1_external_stylesheet_left_raw :
    lookupFile c1Run.1.files ["out", "assets", "main.css"] = some "url(bg.png)" ∧
    (rewrite_css_urls mirrorNet "url(bg.png)" "http://ex.com/main.css" ["out", "assets"]
      "/assets" emptyState).2 = .ok ("url(" ++ sQ ++ "/assets/bg.png" ++ sQ ++ ")") ∧
    ¬(("url(bg.png)" : String) = "url(" ++ sQ ++ "/assets/bg.png" ++ sQ ++ ")") ∧
    c1Run.1.log = ["http://ex.com/main.css", "http://ex.com/assets/main.css"] ∧
    c1Run.2 = .ok [⟨"link", [("rel", "stylesheet"), ("href", "/assets/main.css")], none⟩] := by
  decide

/-- Claim C9 fails as stated: an `img` whose `src` is a `data:` URI is NOT
always byte-for-byte unchanged — when the same tag carries a `style` attribute
with a `url(...)` reference, the inline-style phase rewrites that attribute,
so the serialized tag differs (only its `src` is untouched). -/
theorem C9_data_passthrough_counterexample :
    c9Run.2 = .ok [⟨"img", [("src", "data:image/png;base64,AAA"),
      ("style", "background:url(" ++ sQ ++ "/assets/b.png" ++ sQ ++ ")")], none⟩] ∧
    ¬((⟨"img", [("src", "data:image/png;base64,AAA"),
      ("style", "background:url(" ++ sQ ++ "/assets/b.png" ++ sQ ++ ")")], none⟩ : Element)
      = c9Elem) := by
  decide

theorem phase1_preserve (net : Net) (su : String) (d : FsPath) ( pf : String) (e : Element)
    (hf : ∀ p, p ∈ tag_attr_pairs → ∀ s, (processAttrElem net su d pf p.1 p.2 s e).2 = e) :
    ∀ (s : MirrorState) (doc : Doc) (i : Nat), doc.get? i = some e →
      ((phase1 net su d pf s doc).2).get? i = some e := by
  intro s doc i h
  unfold phase1
  exact foldl_attr_preserve net su d pf tag_attr_pairs e hf s doc i h

/-- Claim C4: a download is only ever invoked after the existence check on the
mapped local path fails — in the direct-attribute phase (an existing path
rewrites the attribute without touching the state), inside the CSS rewriter
(an existing path leaves the state unchanged), and in the external-stylesheet
phase (an existing path rewrites the href without touching the state) — and
consequently no URL fetched during a run had its mapped path already present
at the start of the run, so a second run re-downloads nothing that exists. -/
theorem C4_skip_if_exists :
    (∀ (net : Net) (su : String) (out_dir : FsPath) ( pf nm attr : String)
      (s : MirrorState) (e : Element) (v : String),
      e.name = nm → getAttr e attr = some v → ¬(v = "") →
      should_download_asset (urljoin su v) = true →
      existsPathB s (asset_local_name (urljoin su v) (out_dir ++ ["assets"])) = true →
      processAttrElem net su (out_dir ++ ["assets"]) pf nm attr s e
        = (s, setAttr e attr ( pf ++ "/" ++ relToAssets
            (asset_local_name (urljoin su v) (out_dir ++ ["assets"]))
            (out_dir ++ ["assets"])))) ∧
    (∀ (net : Net) (b : String) (d : FsPath) ( pf : String) (s : MirrorState)
      (g0 inner : String),
      ¬((⟨stripQuotes (stripWs inner.data)⟩ : String) = "" ∨
        strStartsWith (⟨stripQuotes (stripWs inner.data)⟩ : String) "data:" = true) →
      should_download_asset (urljoin b (⟨stripQuotes (stripWs inner.data)⟩ : String)) = true →
      existsPathB s (asset_local_name
        (urljoin b (⟨stripQuotes (stripWs inner.data)⟩ : String)) d) = true →
      (cssRepl net b d pf s g0 inner).1 = s) ∧
    (∀ (net : Net) (su : String) (d : FsPath) ( pf : String) (s : MirrorState)
      (e : Element) (href : String),
      e.name = "link" → relStylesheet e = true → getAttr e "href" = some href →
      ¬(href = "") → should_download_asset (urljoin su href) = true →
      existsPathB s (asset_local_name (urljoin su href) d) = true →
      processLinkElem net su d pf s e
        = (s, setAttr e "href" ( pf ++ "/"
            ++ relToAssets (asset_local_name (urljoin su href) d) d))) ∧
    (∀ (parse : String → Doc) (render : Doc → String) (net : Net) (su : String)
      (out_dir : FsPath) ( pf hn : String) (s0 : MirrorState) (u : String),
      u ∈ (process_page parse render net su out_dir pf hn s0).1.log →
      u ∈ s0.log ∨ existsPathB s0 (asset_local_name u (out_dir ++ ["assets"])) = false) := by
  refine ⟨?_, ?_, ?_, ?_⟩
  · intro net su out_dir pf nm attr s e v hname hga hne hshould hex
    unfold processAttrElem
    rw [if_pos hname, hga]
    dsimp only
    rw [if_neg hne, if_neg (fun hc => hc hshould), if_pos hex]
  · intro net b d pf s g0 inner h1 h2 hex
    unfold cssRepl
    dsimp only
    rw [if_neg h1, if_neg (fun hc => hc h2), if_pos hex]
  · intro net su d pf s e href hname hrel hga hne hshould hex
    unfold processLinkElem
    dsimp only
    rw [if_pos ⟨hname, hrel⟩, hga]
    dsimp only
    rw [if_neg hne, if_neg (fun hc => hc hshould), if_pos hex]
  · intro parse render net su out_dir pf hn s0 u hu
    exact process_page_log parse render net su out_dir pf hn s0 u hu

theorem C4_skip_if_exists_witness :
    "http://ex.com/main.css" ∈ emptyState.log ∨
    existsPathB emptyState
      (asset_local_name "http://ex.com/main.css" (["out"] ++ ["assets"])) = false :=
  C4_skip_if_exists.2.2.2 (fun _ => c1Doc) (fun _ => "HTML") mirrorNet "http://ex.com/"
    ["out"] "/assets" "index.html" emptyState "http://ex.com/main.css" (by decide)

/-- Claim C2: a per-asset download failure during inline-style rewriting
(either the `<style>`-content pass or the `style=`-attribute pass) propagates
uncaught out of `process_page` — the run aborts with that error, and no file
outside the assets root is written, in particular the HTML is never
serialized — whereas in the direct-attribute phase a failed download is
caught: the element is returned unchanged and the error is printed to the
console together with the offending URL. -/
theorem C2_error_handling_asymmetry :
    (∀ (parse : String → Doc) (render : Doc → String) (net : Net) (su : String)
      (out_dir : FsPath) ( pf hn : String) (s0 : MirrorState) (html : String)
      (s2 : MirrorState) (err : String),
      net su = some html →
      mapAccumE (processStyleTag net su (out_dir ++ ["assets"]) pf)
        (phase1 net su (out_dir ++ ["assets"]) pf (preState s0 out_dir su) (parse html)).1
        (phase1 net su (out_dir ++ ["assets"]) pf (preState s0 out_dir su) (parse html)).2
        = (s2, .error err) →
      (process_page parse render net su out_dir pf hn s0).2 = .error err ∧
      (∀ p, ¬ isUnder (out_dir ++ ["assets"]) p →
        lookupFile (process_page parse render net su out_dir pf hn s0).1.files p
          = lookupFile s0.files p)) ∧
    (∀ (parse : String → Doc) (render : Doc → String) (net : Net) (su : String)
      (out_dir : FsPath) ( pf hn : String) (s0 : MirrorState) (html : String)
      (s2 s3 : MirrorState) (doc2 : Doc) (err : String),
      net su = some html →
      mapAccumE (processStyleTag net su (out_dir ++ ["assets"]) pf)
        (phase1 net su (out_dir ++ ["assets"]) pf (preState s0 out_dir su) (parse html)).1
        (phase1 net su (out_dir ++ ["assets"]) pf (preState s0 out_dir su) (parse html)).2
        = (s2, .ok doc2) →
      mapAccumE (processStyleAttr net su (out_dir ++ ["assets"]) pf) s2 doc2
        = (s3, .error err) →
      (process_page parse render net su out_dir pf hn s0).2 = .error err ∧
      (∀ p, ¬ isUnder (out_dir ++ ["assets"]) p →
        lookupFile (process_page parse render net su out_dir pf hn s0).1.files p
          = lookupFile s0.files p)) ∧
    (∀ (net : Net) (su : String) (out_dir : FsPath) ( pf nm attr : String)
      (s : MirrorState) (e : Element) (v : String),
      e.name = nm → getAttr e attr = some v → ¬(v = "") →
      should_download_asset (urljoin su v) = true →
      existsPathB s (asset_local_name (urljoin su v) (out_dir ++ ["assets"])) = false →
      net (urljoin su v) = none →
      (processAttrElem net su (out_dir ++ ["assets"]) pf nm attr s e).2 = e ∧
      ("Fehler beim Download " ++ urljoin su v ++ ": " ++ ("HTTPError " ++ urljoin su v))
        ∈ (processAttrElem net su (out_dir ++ ["assets"]) pf nm attr s e).1.console) := by
  refine ⟨?_, ?_, ?_⟩
  · intro parse render net su out_dir pf hn s0 html s2 err hnet herr
    have hfull := process_page_styleTag_error parse render net su out_dir pf hn s0 html
      s2 err hnet herr
    refine ⟨by rw [hfull], ?_⟩
    intro p hp
    obtain ⟨s4, hstep, hlog, hone⟩ := process_page_stepInv_pre_html parse render net su
      out_dir pf hn s0 html hnet
    have hok : (process_page parse render net su out_dir pf hn s0).2.isOk = false := by
      rw [hfull]
      rfl
    rw [hone hok]
    by_cases heq : lookupFile s4.files p = lookupFile s0.files p
    · exact heq
    · exact absurd (hstep.2.2 p heq) hp
  · intro parse render net su out_dir pf hn s0 html s2 s3 doc2 err hnet h2a herr
    have hfull := process_page_styleAttr_error parse render net su out_dir pf hn s0 html
      s2 s3 doc2 err hnet h2a herr
    refine ⟨by rw [hfull], ?_⟩
    intro p hp
    obtain ⟨s4, hstep, hlog, hone⟩ := process_page_stepInv_pre_html parse render net su
      out_dir pf hn s0 html hnet
    have hok : (process_page parse render net su out_dir pf hn s0).2.isOk = false := by
      rw [hfull]
      rfl
    rw [hone hok]
    by_cases heq : lookupFile s4.files p = lookupFile s0.files p
    · exact heq
    · exact absurd (hstep.2.2 p heq) hp
  · intro net su out_dir pf nm attr s e v hname hga hne hshould hex hnetf
    unfold processAttrElem
    rw [if_pos hname, hga]
    dsimp only
    rw [if_neg hne, if_neg (fun hc => hc hshould)]
    have hexF : ¬(existsPathB s
        (asset_local_name (urljoin su v) (out_dir ++ ["assets"])) = true) := by
      rw [hex]
      exact Bool.false_ne_true
    rw [if_neg hexF]
    rcases hdf : download_file net (pushConsole s ("[HTML] Lade " ++ urljoin su v))
      (urljoin su v) (asset_local_name (urljoin su v) (out_dir ++ ["assets"])) with ⟨sd, ed⟩
    have hsnd := download_file_snd_none (pushConsole s ("[HTML] Lade " ++ urljoin su v))
      (asset_local_name (urljoin su v) (out_dir ++ ["assets"])) hnetf
    rw [hdf] at hsnd
    have hed : ed = some ("HTTPError " ++ urljoin su v) := hsnd
    subst hed
    refine ⟨rfl, ?_⟩
    show ("Fehler beim Download " ++ urljoin su v ++ ": " ++ ("HTTPError " ++ urljoin su v)) ∈
      (pushConsole sd ("Fehler beim Download " ++ urljoin su v ++ ": "
        ++ ("HTTPError " ++ urljoin su v))).console
    simp [pushConsole]

theorem C2_error_handling_asymmetry_witness :
    c2Run.2 = .error ("HTTPError " ++ "http://ex.com/missing.png") ∧
    lookupFile c2Run.1.files (["out"] ++ pathSegs "index.html".data) = none := by
  have h := C2_error_handling_asymmetry.1 (fun _ => c2Doc) (fun _ => "HTML") mirrorNet
    "http://ex.com/" ["out"] "/assets" "index.html" emptyState "<html>"
    c2StyleMid.1 ("HTTPError " ++ "http://ex.com/missing.png") (by decide) (by decide)
  refine ⟨h.1, ?_⟩
  have hnu : ¬ isUnder (["out"] ++ ["assets"]) (["out"] ++ pathSegs "index.html".data) := by
    rintro ⟨rest, hr⟩
    rw [show (["out"] ++ pathSegs "index.html".data : FsPath) = ["out", "index.html"]
      from by decide] at hr
    simp at hr
  have h2 := h.2 (["out"] ++ pathSegs "index.html".data) hnu
  exact h2

/-- Claim C9 (amended): data URIs are never fetched or rewritten — an `img`
element whose `src` is a `data:` URI and which carries no `style` attribute
passes through the whole pipeline unchanged (the original claim fails for an
`img` that also has a `style` attribute, whose whitespace-stripped rewrite can
alter the tag; the counterexample is separate), and in the CSS rewriter any
`url(...)` match whose captured value is empty or begins with `data:` is
returned textually unchanged with the state untouched. -/
theorem C9_data_passthrough_amended :
    (∀ (parse : String → Doc) (render : Doc → String) (net : Net) (su : String)
      (out_dir : FsPath) ( pf hn : String) (s0 : MirrorState) (html : String)
      (i : Nat) (e : Element) (docf : Doc),
      net su = some html → (parse html).get? i = some e → e.name = "img" →
      (∃ v, getAttr e "src" = some v ∧ strStartsWith v "data:" = true) →
      getAttr e "style" = none →
      (process_page parse render net su out_dir pf hn s0).2 = .ok docf →
      docf.get? i = some e) ∧
    (∀ (net : Net) (b : String) (d : FsPath) ( pf : String) (s : MirrorState)
      (g0 inner : String),
      ((⟨stripQuotes (stripWs inner.data)⟩ : String) = "" ∨
        strStartsWith (⟨stripQuotes (stripWs inner.data)⟩ : String) "data:" = true) →
      cssRepl net b d pf s g0 inner = (s, .ok g0)) := by
  constructor
  · intro parse render net su out_dir pf hn s0 html i e docf hnet hget hname hsrc hstyle hok
    obtain ⟨v, hgav, hdv⟩ := hsrc
    have hpairs : ∀ p, p ∈ tag_attr_pairs → ∀ s,
        (processAttrElem net su (out_dir ++ ["assets"]) pf p.1 p.2 s e).2 = e := by
      intro p hp s
      obtain ⟨pn, pa⟩ := p
      simp only [tag_attr_pairs, List.mem_cons, List.not_mem_nil, or_false,
        Prod.mk.injEq] at hp
      rcases hp with ⟨h1, h2⟩ | ⟨h1, h2⟩ | ⟨h1, h2⟩ | ⟨h1, h2⟩ | ⟨h1, h2⟩ | ⟨h1, h2⟩ <;>
        subst h1 <;> subst h2
      · rw [processAttrElem_data hgav hdv]
      · rw [processAttrElem_keep_name (show ¬(e.name = "script") from by rw [hname]; decide)]
      · rw [processAttrElem_keep_name (show ¬(e.name = "link") from by rw [hname]; decide)]
      · rw [processAttrElem_keep_name (show ¬(e.name = "source") from by rw [hname]; decide)]
      · rw [processAttrElem_keep_name (show ¬(e.name = "video") from by rw [hname]; decide)]
      · rw [processAttrElem_keep_name (show ¬(e.name = "audio") from by rw [hname]; decide)]
    have hdoc1 := phase1_preserve net su (out_dir ++ ["assets"]) pf e hpairs
      (preState s0 out_dir su) (parse html) i hget
    unfold process_page at hok
    rw [hnet] at hok
    dsimp only at hok
    rcases h2a : mapAccumE (processStyleTag net su (out_dir ++ ["assets"]) pf)
        (phase1 net su (out_dir ++ ["assets"]) pf (preState s0 out_dir su) (parse html)).1
        (phase1 net su (out_dir ++ ["assets"]) pf (preState s0 out_dir su) (parse html)).2
      with ⟨s2, r2⟩
    rw [h2a] at hok
    cases r2 with
    | error err =>
      have hok2 : (Except.error err : Except String Doc) = Except.ok docf := hok
      exact Except.noConfusion hok2
    | ok doc2 =>
      have hdoc2 : doc2.get? i = some e :=
        mapAccumE_preserve (processStyleTag net su (out_dir ++ ["assets"]) pf) e
          (fun s => congrArg Prod.snd (processStyleTag_not_style
            (show ¬(e.name = "style") from by rw [hname]; decide)))
          _ _ i s2 doc2 hdoc1 h2a
      dsimp only at hok
      rcases h2b : mapAccumE (processStyleAttr net su (out_dir ++ ["assets"]) pf) s2 doc2
        with ⟨s3, r3⟩
      rw [h2b] at hok
      cases r3 with
      | error err =>
        have hok2 : (Except.error err : Except String Doc) = Except.ok docf := hok
        exact Except.noConfusion hok2
      | ok doc3 =>
        have hdoc3 : doc3.get? i = some e :=
          mapAccumE_preserve (processStyleAttr net su (out_dir ++ ["assets"]) pf) e
            (fun s => congrArg Prod.snd (processStyleAttr_none hstyle)) s2 doc2 i s3 doc3 hdoc2 h2b
        dsimp only at hok
        rcases h3c : mapAccum (processLinkElem net su (out_dir ++ ["assets"]) pf) s3 doc3
          with ⟨s4, doc4⟩
        rw [h3c] at hok
        have hdoc4 : doc4.get? i = some e := by
          have h := mapAccum_preserve (processLinkElem net su (out_dir ++ ["assets"]) pf) e
            (fun s => congrArg Prod.snd (processLinkElem_not_link
              (show ¬(e.name = "link") from by rw [hname]; decide))) s3 doc3 i hdoc3
          rw [h3c] at h
          exact h
        have hok2 : (Except.ok doc4 : Except String Doc) = Except.ok docf := hok
        injection hok2 with h4
        rw [← h4]
        exact hdoc4
  · intro net b d pf s g0 inner h
    unfold cssRepl
    dsimp only
    rw [if_pos h]

theorem C9_data_passthrough_amended_witness :
    ([c9CleanElem] : Doc).get? 0 = some c9CleanElem :=
  C9_data_passthrough_amended.1 (fun _ => [c9CleanElem]) (fun _ => "HTML") mirrorNet
    "http://ex.com/" ["out"] "/assets" "index.html" emptyState "<html>" 0 c9CleanElem
    [c9CleanElem] (by decide) (by decide) (by decide)
    ⟨"data:image/png;base64,AAA", by decide, by decide⟩ (by decide) (by decide)
